import Mathlib

/-!
# ProgPoW-style mixing kernel (`src/progpow.go`)

Shallow embedding of `package pow`:

* `uint32` values are natural numbers, reduced with `wrap32` wherever the Go
  operation can leave the 32-bit range (`+`, `*`, `<<`, `++`, conversions);
* methods on pointer receivers (`Kiss99.Next`, `MixRngState.nextDst`, ...)
  return the result together with the new state;
* run-time faults (index out of range, integer division by zero) are `none`
  in `Option`;
* the constants and helpers that `progpow.go` uses but does not define
  (`numLanes`, `numRegs`, ..., `fnv1a`, `randomMerge`, `randomMath`,
  `uint32Array2ByteArray`) are the fields of `Params`;
* the callback `lookup` is a function from item indices to items; where its
  state or its failure matters, `roundCb` and `hashMixCb` run the same code
  with a callback that has a state and may panic (`Callback`, `Outcome`).
-/

namespace Pow

/-! ## Machine words -/

/-- Reduction of an integer result to `uint32`. -/
def wrap32 (x : Nat) : Nat := x % 4294967296

/-! ## Constants and helpers taken as parameters -/

/-- The package-level constants and helper functions that `progpow.go` refers to
and that are declared elsewhere in the package. -/
structure Params where
  numLanes : Nat
  numRegs : Nat
  numCacheAccesses : Nat
  numMathOperations : Nat
  l1CacheNumItems : Nat
  periodLength : Nat
  FNV_OFFSET_BASIS : Nat
  fnv1a : Nat → Nat → Nat
  randomMerge : Nat → Nat → Nat → Nat
  randomMath : Nat → Nat → Nat → Nat
  uint32Array2ByteArray : List Nat → List Nat

/-! ## Kiss99 -/

/-- The Go struct `Kiss99`. -/
structure Kiss99 where
  z : Nat
  w : Nat
  jsr : Nat
  jcong : Nat
deriving DecidableEq, Repr

/-- The Go function `NewKiss99`. -/
def NewKiss99 (z w jsr jcong : Nat) : Kiss99 := ⟨z, w, jsr, jcong⟩

/-- The Go method `(*Kiss99).Next`: the returned word and the updated generator. -/
def Kiss99.Next (k : Kiss99) : Nat × Kiss99 :=
  let z := wrap32 (36969 * (k.z &&& 65535) + (k.z >>> 16))
  let w := wrap32 (18000 * (k.w &&& 65535) + (k.w >>> 16))
  let jcong := wrap32 (69069 * k.jcong + 1234567)
  let jsr1 := k.jsr ^^^ wrap32 (k.jsr <<< 17)
  let jsr2 := jsr1 ^^^ (jsr1 >>> 13)
  let jsr3 := jsr2 ^^^ wrap32 (jsr2 <<< 5)
  (wrap32 ((wrap32 (wrap32 (z <<< 16) + w) ^^^ jcong) + jsr3), ⟨z, w, jsr3, jcong⟩)

/-- The generator after `n` calls of `Next`. -/
def Kiss99.after : Nat → Kiss99 → Kiss99
  | 0, k => k
  | n + 1, k => Kiss99.after n k.Next.2

/-- The word returned by call number `n + 1` of `Next` on a generator in state `k`. -/
def Kiss99.output (k : Kiss99) (n : Nat) : Nat := (Kiss99.after n k).Next.1

/-! ## Register schedule -/

/-- The Go type `MixArray`, `[numLanes][numRegs]uint32`: a list of rows. -/
abbrev MixArray := List (List Nat)

/-- The Go struct `MixRngState`; the generator behind the pointer `Rng` is held by value. -/
structure MixRngState where
  SrcCounter : Nat
  DstCounter : Nat
  SrcSeq : List Nat
  DstSeq : List Nat
  Rng : Kiss99
deriving DecidableEq, Repr

/-- The Go method `(*MixRngState).nextDst`: `s.DstCounter++`, then
`s.DstSeq[s.DstCounter%numRegs]`. -/
def MixRngState.nextDst (p : Params) (s : MixRngState) : Option (Nat × MixRngState) :=
  let s1 : MixRngState := { s with DstCounter := wrap32 (s.DstCounter + 1) }
  match s1.DstSeq[s1.DstCounter % p.numRegs]? with
  | some v => some (v, s1)
  | none => none

/-- The Go method `(*MixRngState).nextSrc`: `s.SrcCounter++`, then
`s.SrcSeq[s.SrcCounter%numRegs]`. -/
def MixRngState.nextSrc (p : Params) (s : MixRngState) : Option (Nat × MixRngState) :=
  let s1 : MixRngState := { s with SrcCounter := wrap32 (s.SrcCounter + 1) }
  match s1.SrcSeq[s1.SrcCounter % p.numRegs]? with
  | some v => some (v, s1)
  | none => none

/-- The tuple assignment `a[i], a[j] = a[j], a[i]`: both right-hand sides are read
first, then `a[i]` and `a[j]` are written in that order. In `initMixRngState` both
indices are below the array length (`j < i + 1 ≤ numRegs`), see `shuffle_perm`. -/
def swapAt (xs : List Nat) (i j : Nat) : List Nat :=
  (xs.set i (xs.getD j 0)).set j (xs.getD i 0)

/-- The loop `for i = numRegs; i > 1; i--` of `initMixRngState`, started at `i`, on
the generator, `srcSeq` and `dstSeq`. -/
def shuffle : Nat → Kiss99 × List Nat × List Nat → Kiss99 × List Nat × List Nat
  | 0, st => st
  | i + 1, (rng, srcSeq, dstSeq) =>
    if 1 < i + 1 then
      let d := rng.Next
      let dstInd := d.1 % (i + 1)
      let dstSeq1 := swapAt dstSeq i dstInd
      let s := d.2.Next
      let srcInd := s.1 % (i + 1)
      let srcSeq1 := swapAt srcSeq i srcInd
      shuffle i (s.2, srcSeq1, dstSeq1)
    else (rng, srcSeq, dstSeq)

/-- The generator that `initMixRngState` seeds from `seed` (lines 26-31). -/
def scheduleRng (p : Params) (seed : Nat) : Kiss99 :=
  let z := p.fnv1a p.FNV_OFFSET_BASIS (wrap32 seed)
  let w := p.fnv1a z (wrap32 (seed >>> 32))
  let jsr := p.fnv1a w (wrap32 seed)
  let jcong := p.fnv1a jsr (wrap32 (seed >>> 32))
  NewKiss99 z w jsr jcong

/-- The Go function `initMixRngState`. The first loop leaves `0, 1, ..., numRegs-1` in
both arrays. -/
def initMixRngState (p : Params) (seed : Nat) : MixRngState :=
  let rng := scheduleRng p seed
  let srcSeq := List.range p.numRegs
  let dstSeq := List.range p.numRegs
  let r := shuffle p.numRegs (rng, srcSeq, dstSeq)
  ⟨0, 0, r.2.1, r.2.2, r.1⟩

/-! ## Mix state -/

/-- The loop `for r := range mix[l] { mix[l][r] = rng.Next() }` over `n` registers. -/
def fillRow : Nat → Kiss99 → List Nat
  | 0, _ => []
  | n + 1, rng => rng.Next.1 :: fillRow n rng.Next.2

/-- The Go function `initMix`. -/
def initMix (p : Params) (seed : Nat) : MixArray :=
  let z := p.fnv1a p.FNV_OFFSET_BASIS (wrap32 seed)
  let w := p.fnv1a z (wrap32 (seed >>> 32))
  (List.range p.numLanes).map (fun l =>
    let jsr := p.fnv1a w (wrap32 l)
    let jcong := p.fnv1a jsr (wrap32 l)
    fillRow p.numRegs (NewKiss99 z w jsr jcong))

/-- Read of `mix[l][r]`. -/
def getReg (mix : MixArray) (l r : Nat) : Option Nat :=
  match mix[l]? with
  | some row => row[r]?
  | none => none

/-- Write `mix[l][r] = v`. -/
def setReg (mix : MixArray) (l r v : Nat) : Option MixArray :=
  match mix[l]? with
  | some row => if r < row.length then some (mix.set l (row.set r v)) else none
  | none => none

/-! ## One round -/

/-- Body of the lane loop of the cache branch (lines 112-113). -/
def cacheLane (p : Params) (l1 : List Nat) (src dst sel : Nat) (mix : MixArray) (l : Nat) :
    Option MixArray := do
  let a ← getReg mix l src
  let offset := a % p.l1CacheNumItems
  let d ← getReg mix l dst
  let c ← l1[offset]?
  setReg mix l dst (p.randomMerge d c sel)

/-- The register pair of the math branch (lines 119-123) from `srcRand`. -/
def mathSrc (numRegs srcRand : Nat) : Nat × Nat :=
  let src1 := srcRand % numRegs
  let src2 := srcRand / numRegs
  (src1, if src2 ≥ src1 then wrap32 (src2 + 1) else src2)

/-- Body of the lane loop of the math branch (lines 130-131). -/
def mathLane (p : Params) (src1 src2 sel1 dst sel2 : Nat) (mix : MixArray) (l : Nat) :
    Option MixArray := do
  let a ← getReg mix l src1
  let b ← getReg mix l src2
  let data := p.randomMath a b sel1
  let d ← getReg mix l dst
  setReg mix l dst (p.randomMerge d data sel2)

/-- The cache branch of one iteration (lines 107-114). -/
def cacheOp (p : Params) (l1 : List Nat) (acc : MixArray × MixRngState) :
    Option (MixArray × MixRngState) := do
  let src ← acc.2.nextSrc p
  let dst ← src.2.nextDst p
  let sel := dst.2.Rng.Next
  let mix ← (List.range p.numLanes).foldlM (cacheLane p l1 src.1 dst.1 sel.1) acc.1
  pure (mix, { dst.2 with Rng := sel.2 })

/-- The math branch of one iteration (lines 118-132). The divisor
`numRegs * (numRegs - 1)` is a constant expression. -/
def mathOp (p : Params) (acc : MixArray × MixRngState) : Option (MixArray × MixRngState) := do
  let x := acc.2.Rng.Next
  let srcRand := x.1 % (p.numRegs * (p.numRegs - 1))
  let src := mathSrc p.numRegs srcRand
  let sel1 := x.2.Next
  let dst ← ({ acc.2 with Rng := sel1.2 } : MixRngState).nextDst p
  let sel2 := dst.2.Rng.Next
  let mix ← (List.range p.numLanes).foldlM (mathLane p src.1 src.2 sel1.1 dst.1 sel2.1) acc.1
  pure (mix, { dst.2 with Rng := sel2.2 })

/-- One iteration `i` of the loop of lines 105-134. -/
def roundStep (p : Params) (l1 : List Nat) (acc : MixArray × MixRngState) (i : Nat) :
    Option (MixArray × MixRngState) := do
  let acc1 ← (if i < p.numCacheAccesses then cacheOp p l1 acc else some acc)
  (if i < p.numMathOperations then mathOp p acc1 else some acc1)

/-- One iteration `i` of the loop of lines 139-147 on `(dsts, sels)` and the schedule. -/
def dagStep (p : Params) (acc : (List Nat × List Nat) × MixRngState) (i : Nat) :
    Option ((List Nat × List Nat) × MixRngState) := do
  let d ← (if i = 0 then some (0, acc.2) else acc.2.nextDst p)
  let sel := d.2.Rng.Next
  (if i < acc.1.1.length ∧ i < acc.1.2.length then
    some ((acc.1.1.set i d.1, acc.1.2.set i sel.1), { d.2 with Rng := sel.2 })
  else none)

/-- One iteration `i` of the inner loop of lines 151-154 for lane `l`. -/
def dagWord (p : Params) (item dsts sels : List Nat) (offset l : Nat) (mix : MixArray)
    (i : Nat) : Option MixArray := do
  let word ← item[wrap32 (offset + wrap32 i)]?
  let dst ← dsts[i]?
  let sel ← sels[i]?
  let d ← getReg mix l dst
  setReg mix l dst (p.randomMerge d word sel)

/-- Body of the lane loop of lines 149-155. -/
def dagLane (p : Params) (r : Nat) (item dsts sels : List Nat) (numWordsPerLane : Nat)
    (mix : MixArray) (l : Nat) : Option MixArray :=
  let offset := wrap32 (((wrap32 l ^^^ r) % p.numLanes) * wrap32 numWordsPerLane)
  (List.range numWordsPerLane).foldlM (dagWord p item dsts sels offset l) mix

/-- The Go function `round`; the schedule behind `state` is returned with the mix. -/
def round (p : Params) (l1 : List Nat) (r : Nat) (mix : MixArray) (state : MixRngState)
    (lookup : Nat → List Nat) : Option (MixArray × MixRngState) := do
  let numItems := p.l1CacheNumItems / 2
  let m0 ← getReg mix (r % p.numLanes) 0
  let itemIndex ← (if numItems = 0 then none else some (m0 % numItems))
  let item := lookup itemIndex
  let numWordsPerLane := item.length / p.numLanes
  let maxOperations := max p.numCacheAccesses p.numMathOperations
  let acc ← (List.range maxOperations).foldlM (roundStep p l1) (mix, state)
  let dag ← (List.range numWordsPerLane).foldlM (dagStep p)
    ((List.replicate numWordsPerLane 0, List.replicate numWordsPerLane 0), acc.2)
  let mix1 ← (List.range p.numLanes).foldlM
    (dagLane p r item dag.1.1 dag.1.2 numWordsPerLane) acc.1
  pure (mix1, dag.2)

/-! ## The hash -/

/-- The loop of lines 165-167: 64 rounds with round index `uint32(i)`. -/
def rounds (p : Params) (l1 : List Nat) (lookup : Nat → List Nat)
    (acc : MixArray × MixRngState) : Option (MixArray × MixRngState) :=
  (List.range 64).foldlM (fun a i => round p l1 (wrap32 i) a.1 a.2 lookup) acc

/-- The loop of lines 169-176 producing `laneHash`. -/
def laneHashes (p : Params) (mix : MixArray) : Option (List Nat) :=
  (List.range p.numLanes).foldlM (fun laneHash l => do
    let lh0 ← (if l < laneHash.length then some (laneHash.set l p.FNV_OFFSET_BASIS) else none)
    (List.range p.numRegs).foldlM (fun lh i => do
      let cur ← lh[l]?
      let v ← getReg mix l i
      pure (lh.set l (p.fnv1a cur v))) lh0) (List.replicate p.numLanes 0)

/-- The loops of lines 178-185 producing `mixHash` from `laneHash`. -/
def mixHashOf (p : Params) (laneHash : List Nat) : Option (List Nat) :=
  let init := (List.range 8).foldl (fun m i => m.set i p.FNV_OFFSET_BASIS) (List.replicate 8 0)
  (List.range p.numLanes).foldlM (fun mixHash l => do
    let cur ← mixHash[l % 8]?
    let v ← laneHash[l]?
    pure (mixHash.set (l % 8) (p.fnv1a cur v))) init

/-- The words that `hashMix` hands to `uint32Array2ByteArray`. -/
def hashMixWords (p : Params) (l1 : List Nat) (height seed : Nat) (lookup : Nat → List Nat) :
    Option (List Nat) := do
  let mix := initMix p seed
  let number := height / p.periodLength
  let state := initMixRngState p number
  let acc ← rounds p l1 lookup (mix, state)
  let laneHash ← laneHashes p acc.1
  mixHashOf p laneHash

/-- The Go function `hashMix`. -/
def hashMix (p : Params) (l1 : List Nat) (height seed : Nat) (lookup : Nat → List Nat) :
    Option (List Nat) :=
  (hashMixWords p l1 height seed lookup).map p.uint32Array2ByteArray

/-! ## A concrete configuration -/

/-- Modelled from the spec: `fnv1a` is declared outside `progpow.go`; the spec (4.1)
describes it as the reference FNV-1a step, XOR then multiply by the FNV prime, over
32-bit wraparound arithmetic. -/
def fnv1aRef (h d : Nat) : Nat := wrap32 ((h ^^^ d) * 16777619)

/-- Little-endian bytes of the words, a stand-in for `uint32Array2ByteArray`. -/
def bytesLE (ws : List Nat) : List Nat :=
  ws.flatMap (fun w => [w % 256, (w >>> 8) % 256, (w >>> 16) % 256, (w >>> 24) % 256])

/-- A concrete configuration on which the definitions are evaluated: the 16 lanes and
32 registers the spec names, the reference ProgPoW counts for the other constants, the
reference FNV-1a, and the first entries of the reference merge and math tables in the
place of `randomMerge` and `randomMath`. The general theorems below hold for every
`Params`. -/
def sampleParams : Params where
  numLanes := 16
  numRegs := 32
  numCacheAccesses := 11
  numMathOperations := 18
  l1CacheNumItems := 4096
  periodLength := 10
  FNV_OFFSET_BASIS := 2166136261
  fnv1a := fnv1aRef
  randomMerge := fun a b _ => wrap32 (a * 33 + b)
  randomMath := fun a b _ => wrap32 (a + b)
  uint32Array2ByteArray := bytesLE

/-! ## Auxiliary definitions for the statements -/

/-- A sequence of cursor calls on a schedule, `true` for `nextDst` and `false` for
`nextSrc`; the schedule after the calls. -/
def MixRngState.calls (p : Params) : List Bool → MixRngState → Option MixRngState
  | [], s => some s
  | true :: cs, s =>
    match s.nextDst p with
    | some r => MixRngState.calls p cs r.2
    | none => none
  | false :: cs, s =>
    match s.nextSrc p with
    | some r => MixRngState.calls p cs r.2
    | none => none

/-- The constraints that compilation puts on the constants: `numLanes`, `numRegs` and
`numRegs * (numRegs - 1)` are constant divisors, `numRegs` is a `uint32` operand; and
the divisor `numItems = l1CacheNumItems / 2` of `round` is not zero. -/
structure Params.WF (p : Params) : Prop where
  lanes_pos : 0 < p.numLanes
  regs_ge : 2 ≤ p.numRegs
  regs_le : p.numRegs ≤ 4294967296
  items_ge : 2 ≤ p.l1CacheNumItems

/-- Shape of a value of type `MixArray`: `numLanes` rows of `numRegs` registers. -/
def MixOK (p : Params) (mix : MixArray) : Prop :=
  mix.length = p.numLanes ∧ ∀ row, row ∈ mix → row.length = p.numRegs

/-- A schedule whose arrays have `numRegs` entries, all of them register indices. -/
def SchedOK (p : Params) (s : MixRngState) : Prop :=
  (s.SrcSeq.length = p.numRegs ∧ s.DstSeq.length = p.numRegs) ∧
    (∀ v, v ∈ s.SrcSeq → v < p.numRegs) ∧ (∀ v, v ∈ s.DstSeq → v < p.numRegs)

/-- Invariant of the loop of `round` that fills `dsts` and `sels` (`n` words per lane). -/
def DagOK (p : Params) (n : Nat) (acc : (List Nat × List Nat) × MixRngState) : Prop :=
  (acc.1.1.length = n ∧ acc.1.2.length = n) ∧ (∀ d, d ∈ acc.1.1 → d < p.numRegs) ∧
    SchedOK p acc.2

/-- Register `r` of lane `l` of a mix state. -/
def regOf (mix : MixArray) (l r : Nat) : Nat := (mix.getD l []).getD r 0

/-- The lane hash as the spec words it: the fold of the `numRegs` registers of lane `l`
through `fnv1a`, starting from the offset basis. -/
def specLaneHash (p : Params) (mix : MixArray) (l : Nat) : Nat :=
  ((List.range p.numRegs).map (regOf mix l)).foldl p.fnv1a p.FNV_OFFSET_BASIS

/-- The digest word `j` as the spec words it: the fold through `fnv1a`, starting from
the offset basis, of the lane hashes of the lanes `l < numLanes` with `l % 8 = j`, in
increasing `l`. -/
def specDigestWord (p : Params) (mix : MixArray) (j : Nat) : Nat :=
  (((List.range p.numLanes).filter (fun l => l % 8 = j)).map (specLaneHash p mix)).foldl
    p.fnv1a p.FNV_OFFSET_BASIS

/-- The fold of the first `i` registers of lane `l`. -/
def laneFold (p : Params) (mix : MixArray) (l i : Nat) : Nat :=
  ((List.range i).map (regOf mix l)).foldl p.fnv1a p.FNV_OFFSET_BASIS

/-- The fold through `fnv1a` of the values `H l` for the `l < k` with `l % 8 = j`. -/
def wordFold (p : Params) (H : Nat → Nat) (k j : Nat) : Nat :=
  (((List.range k).filter (fun l => l % 8 = j)).map H).foldl p.fnv1a p.FNV_OFFSET_BASIS

/-- All four words of a generator are in the `uint32` range. -/
def Kiss99.Valid (k : Kiss99) : Prop :=
  k.z < 4294967296 ∧ k.w < 4294967296 ∧ k.jsr < 4294967296 ∧ k.jcong < 4294967296

/-- Exchange of the entries at positions `a` and `b`, entry by entry. -/
def exchange (xs : List Nat) (a b : Nat) : List Nat :=
  (List.range xs.length).map
    (fun k => if k = a then xs.getD b 0 else if k = b then xs.getD a 0 else xs.getD k 0)

/-- The generator of the reference construction: seeded with `z = fnv1a(basis, lo)`,
`w = fnv1a(z, hi)`, `jsr = fnv1a(w, lo)`, `jcong = fnv1a(jsr, hi)`. -/
def specScheduleRng (p : Params) (seed : Nat) : Kiss99 :=
  { z := p.fnv1a p.FNV_OFFSET_BASIS (seed % 4294967296)
    w := p.fnv1a (p.fnv1a p.FNV_OFFSET_BASIS (seed % 4294967296))
      (seed / 4294967296 % 4294967296)
    jsr := p.fnv1a (p.fnv1a (p.fnv1a p.FNV_OFFSET_BASIS (seed % 4294967296))
      (seed / 4294967296 % 4294967296)) (seed % 4294967296)
    jcong := p.fnv1a (p.fnv1a (p.fnv1a (p.fnv1a p.FNV_OFFSET_BASIS (seed % 4294967296))
      (seed / 4294967296 % 4294967296)) (seed % 4294967296))
      (seed / 4294967296 % 4294967296) }

/-- Destination permutation of the reference construction: step `t = 0, 1, ...` handles
`i = numRegs - t` and uses draw number `2 t + 1` of the stream. -/
def specDstSeq (p : Params) (seed : Nat) : List Nat :=
  (List.range (p.numRegs - 1)).foldl
    (fun xs t => exchange xs (p.numRegs - t - 1)
      (Kiss99.output (specScheduleRng p seed) (2 * t) % (p.numRegs - t)))
    (List.range p.numRegs)

/-- Source permutation of the reference construction: step `t` uses draw number
`2 t + 2` of the stream. -/
def specSrcSeq (p : Params) (seed : Nat) : List Nat :=
  (List.range (p.numRegs - 1)).foldl
    (fun xs t => exchange xs (p.numRegs - t - 1)
      (Kiss99.output (specScheduleRng p seed) (2 * t + 1) % (p.numRegs - t)))
    (List.range p.numRegs)

/-- The schedule of the reference construction. -/
def specSchedule (p : Params) (seed : Nat) : MixRngState :=
  { SrcCounter := 0
    DstCounter := 0
    SrcSeq := specSrcSeq p seed
    DstSeq := specDstSeq p seed
    Rng := Kiss99.after (2 * (p.numRegs - 1)) (specScheduleRng p seed) }

/-- The values returned by `n` consecutive calls of `nextDst`, with the schedule after
them. -/
def MixRngState.dstCalls (p : Params) : Nat → MixRngState → Option (List Nat × MixRngState)
  | 0, s => some ([], s)
  | n + 1, s =>
    match s.nextDst p with
    | some r =>
      match MixRngState.dstCalls p n r.2 with
      | some rest => some (r.1 :: rest.1, rest.2)
      | none => none
    | none => none

/-- The values returned by `n` consecutive calls of `nextSrc`, with the schedule after
them. -/
def MixRngState.srcCalls (p : Params) : Nat → MixRngState → Option (List Nat × MixRngState)
  | 0, s => some ([], s)
  | n + 1, s =>
    match s.nextSrc p with
    | some r =>
      match MixRngState.srcCalls p n r.2 with
      | some rest => some (r.1 :: rest.1, rest.2)
      | none => none
    | none => none

/-- The segment of the item that lane `l` reads in round `r`: `(uint32(l) ^ r) % numLanes`
(line 150). -/
def laneSlot (p : Params) (r l : Nat) : Nat := (wrap32 l ^^^ r) % p.numLanes

/-- The index `offset + uint32(i)` into the item that lane `l` reads for word `i`
(lines 150 and 152), with `n` words per lane. -/
def itemIndexOf (p : Params) (r n l i : Nat) : Nat :=
  wrap32 (wrap32 (laneSlot p r l * wrap32 n) + wrap32 i)

/-- A `uint32` counter after `n` increments. -/
def bump : Nat → Nat → Nat
  | 0, c => c
  | n + 1, c => bump n (wrap32 (c + 1))

/-- The schedule after `a` calls of `nextSrc`, `b` calls of `nextDst` and `c` draws of
its generator. -/
def MixRngState.advanced (s : MixRngState) (a b c : Nat) : MixRngState :=
  { SrcCounter := bump a s.SrcCounter
    DstCounter := bump b s.DstCounter
    SrcSeq := s.SrcSeq
    DstSeq := s.DstSeq
    Rng := Kiss99.after c s.Rng }

/-- The item index that `round` hands to `lookup` (lines 97-100). -/
def roundIndex (p : Params) (r : Nat) (mix : MixArray) : Option Nat :=
  match getReg mix (r % p.numLanes) 0 with
  | some m0 => if p.l1CacheNumItems / 2 = 0 then none else some (m0 % (p.l1CacheNumItems / 2))
  | none => none

/-- How a run ends when the lookup callback may panic: with a result, with the panic
raised by the callback (carrying its value), or with a run-time panic of the code itself
(index out of range, division by zero). -/
inductive Outcome (ε α : Type) where
  | done (a : α)
  | lookupFailed (e : ε)
  | fault
deriving DecidableEq, Repr

/-- A result of the fault-only model as an outcome. -/
def Outcome.ofOption {ε α : Type} : Option α → Outcome ε α
  | some a => Outcome.done a
  | none => Outcome.fault

/-- The lookup callback as a Go closure: called with an index in its current state `σ`,
it returns an item or panics with a value of type `ε`, and leaves a new state. -/
abbrev Callback (σ ε : Type) := Nat → σ → Except ε (List Nat) × σ

/-- Lines 102-157 of `round`: all that follows `item := lookup(itemIndex)`. -/
def roundBody (p : Params) (l1 : List Nat) (r : Nat) (mix : MixArray) (state : MixRngState)
    (item : List Nat) : Option (MixArray × MixRngState) := do
  let numWordsPerLane := item.length / p.numLanes
  let maxOperations := max p.numCacheAccesses p.numMathOperations
  let acc ← (List.range maxOperations).foldlM (roundStep p l1) (mix, state)
  let dag ← (List.range numWordsPerLane).foldlM (dagStep p)
    ((List.replicate numWordsPerLane 0, List.replicate numWordsPerLane 0), acc.2)
  let mix1 ← (List.range p.numLanes).foldlM
    (dagLane p r item dag.1.1 dag.1.2 numWordsPerLane) acc.1
  pure (mix1, dag.2)

/-- The Go function `round` run with a callback: the item index is computed (lines
97-98), the callback is invoked once (line 100), and the rest of the round runs on the
item it returned. Neither `round` nor `hashMix` recovers, so a panic of the callback ends
the run. -/
def roundCb {σ ε : Type} (p : Params) (l1 : List Nat) (r : Nat) (mix : MixArray)
    (state : MixRngState) (lookup : Callback σ ε) (cb : σ) :
    Outcome ε (MixArray × MixRngState) × σ :=
  match roundIndex p r mix with
  | none => (Outcome.fault, cb)
  | some itemIndex =>
    match lookup itemIndex cb with
    | (Except.error e, cb1) => (Outcome.lookupFailed e, cb1)
    | (Except.ok item, cb1) =>
      match roundBody p l1 r mix state item with
      | none => (Outcome.fault, cb1)
      | some res => (Outcome.done res, cb1)

/-- The loop of lines 165-167 over the loop values `rs`, run with a callback. -/
def roundsCb {σ ε : Type} (p : Params) (l1 : List Nat) (lookup : Callback σ ε) :
    List Nat → MixArray × MixRngState → σ → Outcome ε (MixArray × MixRngState) × σ
  | [], acc, cb => (Outcome.done acc, cb)
  | i :: rs, acc, cb =>
    match roundCb p l1 (wrap32 i) acc.1 acc.2 lookup cb with
    | (Outcome.done acc1, cb1) => roundsCb p l1 lookup rs acc1 cb1
    | (Outcome.lookupFailed e, cb1) => (Outcome.lookupFailed e, cb1)
    | (Outcome.fault, cb1) => (Outcome.fault, cb1)

/-- The Go function `hashMix` run with a callback: the outcome and the state in which the
callback is left. -/
def hashMixCb {σ ε : Type} (p : Params) (l1 : List Nat) (height seed : Nat)
    (lookup : Callback σ ε) (cb : σ) : Outcome ε (List Nat) × σ :=
  match roundsCb p l1 lookup (List.range 64)
      (initMix p seed, initMixRngState p (height / p.periodLength)) cb with
  | (Outcome.done acc, cb1) =>
    match (laneHashes p acc.1).bind (mixHashOf p) with
    | some mixHash => (Outcome.done (p.uint32Array2ByteArray mixHash), cb1)
    | none => (Outcome.fault, cb1)
  | (Outcome.lookupFailed e, cb1) => (Outcome.lookupFailed e, cb1)
  | (Outcome.fault, cb1) => (Outcome.fault, cb1)

/-- A test double that serves the items of `lookup` and records, in its state, the
indices it was invoked with, in order. -/
def logCallback {ε : Type} (lookup : Nat → List Nat) : Callback (List Nat) ε :=
  fun i log => (Except.ok (lookup i), log ++ [i])

/-- The registers and selectors that one operation of `round` draws from the schedule:
`src`, `dst`, `sel` of a cache access (lines 107-109) or `src1`, `src2`, `sel1`, `dst`,
`sel2` of a math operation (lines 118-127). -/
inductive Draw where
  | cache (src dst sel : Nat)
  | math (src1 src2 sel1 dst sel2 : Nat)
deriving DecidableEq, Repr

/-- Lines 107-109: the draws of a cache access, from the schedule alone. -/
def cacheDraw (p : Params) (st : MixRngState) : Option (Draw × MixRngState) := do
  let src ← st.nextSrc p
  let dst ← src.2.nextDst p
  let sel := dst.2.Rng.Next
  pure (Draw.cache src.1 dst.1 sel.1, { dst.2 with Rng := sel.2 })

/-- Lines 118-127: the draws of a math operation, from the schedule alone. -/
def mathDraw (p : Params) (st : MixRngState) : Option (Draw × MixRngState) := do
  let x := st.Rng.Next
  let srcRand := x.1 % (p.numRegs * (p.numRegs - 1))
  let src := mathSrc p.numRegs srcRand
  let sel1 := x.2.Next
  let dst ← ({ st with Rng := sel1.2 } : MixRngState).nextDst p
  let sel2 := dst.2.Rng.Next
  pure (Draw.math src.1 src.2 sel1.1 dst.1 sel2.1, { dst.2 with Rng := sel2.2 })

/-- The draws of iteration `i` of the loop of lines 105-134, appended to those made so
far. -/
def stepDraws (p : Params) (acc : List Draw × MixRngState) (i : Nat) :
    Option (List Draw × MixRngState) := do
  let acc1 ← (if i < p.numCacheAccesses then
    (cacheDraw p acc.2).map (fun d => (acc.1 ++ [d.1], d.2)) else some acc)
  (if i < p.numMathOperations then
    (mathDraw p acc1.2).map (fun d => (acc1.1 ++ [d.1], d.2)) else some acc1)

/-- The sequence of registers and selectors of one round: the draws of the cache and
math operations in order, and the arrays `dsts` and `sels` of the dataset merge. -/
structure RoundPlan where
  ops : List Draw
  dsts : List Nat
  sels : List Nat
deriving DecidableEq, Repr

/-- The plan of a round and the schedule after it, computed from the schedule before and
the number of words per lane alone (no cache, mix state or item). -/
def roundPlan (p : Params) (numWordsPerLane : Nat) (st : MixRngState) :
    Option (RoundPlan × MixRngState) := do
  let a ← (List.range (max p.numCacheAccesses p.numMathOperations)).foldlM (stepDraws p) ([], st)
  let dag ← (List.range numWordsPerLane).foldlM (dagStep p)
    ((List.replicate numWordsPerLane 0, List.replicate numWordsPerLane 0), a.2)
  pure (⟨a.1, dag.1.1, dag.1.2⟩, dag.2)

/-- The lane loop of one operation (lines 111-114 or 129-132) for given draws. -/
def applyDraw (p : Params) (l1 : List Nat) (mix : MixArray) (d : Draw) : Option MixArray :=
  match d with
  | Draw.cache src dst sel => (List.range p.numLanes).foldlM (cacheLane p l1 src dst sel) mix
  | Draw.math src1 src2 sel1 dst sel2 =>
    (List.range p.numLanes).foldlM (mathLane p src1 src2 sel1 dst sel2) mix

/-- The data side of a round: the operations of the plan applied in order, then the
dataset merge of lines 149-155 with the plan's `dsts` and `sels`. -/
def applyPlan (p : Params) (l1 : List Nat) (r : Nat) (item : List Nat) (plan : RoundPlan)
    (mix : MixArray) : Option MixArray := do
  let m ← plan.ops.foldlM (applyDraw p l1) mix
  (List.range p.numLanes).foldlM
    (dagLane p r item plan.dsts plan.sels (item.length / p.numLanes)) m

/-- The plans of successive rounds whose items have the given lengths, from the schedule
alone (`numWordsPerLane` of line 103 is the item length divided by `numLanes`). -/
def roundsPlan (p : Params) : List Nat → MixRngState → Option (List RoundPlan × MixRngState)
  | [], st => some ([], st)
  | len :: lens, st =>
    match roundPlan p (len / p.numLanes) st with
    | some a =>
      match roundsPlan p lens a.2 with
      | some b => some (a.1 :: b.1, b.2)
      | none => none
    | none => none

/-- The data side of successive rounds for the loop values `rs` under given plans: the
final mix state and the length of the item fetched in each round. -/
def applyRounds (p : Params) (l1 : List Nat) (lookup : Nat → List Nat) :
    List Nat → List RoundPlan → MixArray → Option (MixArray × List Nat)
  | [], [], mix => some (mix, [])
  | i :: rs, plan :: plans, mix =>
    match roundIndex p (wrap32 i) mix with
    | some idx =>
      match applyPlan p l1 (wrap32 i) (lookup idx) plan mix with
      | some m =>
        match applyRounds p l1 lookup rs plans m with
        | some rest => some (rest.1, (lookup idx).length :: rest.2)
        | none => none
      | none => none
    | none => none
  | _, _, _ => none

/-! ## Kiss99 reference vector -/

/-- C1: a generator built by `NewKiss99 362436069 521288629 123456789 380116160`
returns 769445856, 742012328, 2121196314 and 2805620942 on its first four calls of
`Next`, in that order. -/
theorem kiss99_reference_vector :
    (Kiss99.Next (NewKiss99 362436069 521288629 123456789 380116160)).1 = 769445856 ∧
    (Kiss99.Next (Kiss99.Next (NewKiss99 362436069 521288629 123456789 380116160)).2).1 =
      742012328 ∧
    (Kiss99.Next (Kiss99.Next
      (Kiss99.Next (NewKiss99 362436069 521288629 123456789 380116160)).2).2).1 =
      2121196314 ∧
    (Kiss99.Next (Kiss99.Next (Kiss99.Next
      (Kiss99.Next (NewKiss99 362436069 521288629 123456789 380116160)).2).2).2).1 =
      2805620942 := by
  decide

/-! ## The permutations of the schedule -/

theorem swapAt_length (xs : List Nat) (i j : Nat) : (swapAt xs i j).length = xs.length := by
  simp [swapAt]

theorem ite_getElem_le_count (xs : List Nat) (a k : Nat) (hk : k < xs.length) :
    (if xs[k] = a then 1 else 0) ≤ xs.count a := by
  split
  · rename_i h
    exact List.count_pos_iff.mpr (h ▸ List.getElem_mem hk)
  · omega

theorem swapAt_perm (xs : List Nat) (i j : Nat) (hi : i < xs.length) (hj : j < xs.length) :
    (swapAt xs i j).Perm xs := by
  rw [List.perm_iff_count]
  intro a
  unfold swapAt
  have hj' : j < (xs.set i (xs.getD j 0)).length := by simpa using hj
  rw [List.count_set _ _ _ _ hj', List.count_set _ _ _ _ hi]
  simp only [List.getD_eq_getElem?_getD, List.getElem?_eq_getElem hi, List.getElem?_eq_getElem hj,
    Option.getD_some, List.getElem_set, beq_iff_eq]
  have h1 := ite_getElem_le_count xs a i hi
  have h2 := ite_getElem_le_count xs a j hj
  by_cases hij : i = j
  · subst hij
    simp only [if_true]
    omega
  · simp only [hij, if_false]
    split_ifs at h1 h2 ⊢ <;> omega

/-- The shuffle loop started at `i ≤ numRegs` permutes both arrays. -/
theorem shuffle_perm (i : Nat) (rng : Kiss99) (srcSeq dstSeq : List Nat)
    (hs : i ≤ srcSeq.length) (hd : i ≤ dstSeq.length) :
    (shuffle i (rng, srcSeq, dstSeq)).2.1.Perm srcSeq ∧
      (shuffle i (rng, srcSeq, dstSeq)).2.2.Perm dstSeq := by
  induction i generalizing rng srcSeq dstSeq with
  | zero => exact ⟨List.Perm.refl _, List.Perm.refl _⟩
  | succ i ih =>
    unfold shuffle
    split
    · have hms : ∀ x : Nat, x % (i + 1) < srcSeq.length := fun x => by
        have := Nat.mod_lt x (show 0 < i + 1 by omega); omega
      have hmd : ∀ x : Nat, x % (i + 1) < dstSeq.length := fun x => by
        have := Nat.mod_lt x (show 0 < i + 1 by omega); omega
      have h := ih rng.Next.2.Next.2
        (swapAt srcSeq i (rng.Next.2.Next.1 % (i + 1)))
        (swapAt dstSeq i (rng.Next.1 % (i + 1)))
        (by rw [swapAt_length]; omega) (by rw [swapAt_length]; omega)
      exact ⟨h.1.trans (swapAt_perm _ _ _ (by omega) (hms _)),
        h.2.trans (swapAt_perm _ _ _ (by omega) (hmd _))⟩
    · exact ⟨List.Perm.refl _, List.Perm.refl _⟩

theorem initMixRngState_src_perm (p : Params) (seed : Nat) :
    (initMixRngState p seed).SrcSeq.Perm (List.range p.numRegs) :=
  (shuffle_perm p.numRegs _ _ _ (by simp) (by simp)).1

theorem initMixRngState_dst_perm (p : Params) (seed : Nat) :
    (initMixRngState p seed).DstSeq.Perm (List.range p.numRegs) :=
  (shuffle_perm p.numRegs _ _ _ (by simp) (by simp)).2

theorem initMixRngState_lengths (p : Params) (seed : Nat) :
    (initMixRngState p seed).SrcSeq.length = p.numRegs ∧
      (initMixRngState p seed).DstSeq.length = p.numRegs :=
  ⟨by simpa using (initMixRngState_src_perm p seed).length_eq,
    by simpa using (initMixRngState_dst_perm p seed).length_eq⟩

theorem count_range_of_lt (n v : Nat) (h : v < n) : (List.range n).count v = 1 :=
  List.count_eq_one_of_mem (List.nodup_range n) (List.mem_range.mpr h)

/-- C2: for every seed, `SrcSeq` and `DstSeq` of the schedule returned by
`initMixRngState` are permutations of `0, ..., numRegs-1`: each has `numRegs` entries
and every value below `numRegs` occurs in it exactly once. -/
theorem initMixRngState_permutations (p : Params) (seed : Nat) :
    ((initMixRngState p seed).SrcSeq.Perm (List.range p.numRegs) ∧
      (initMixRngState p seed).DstSeq.Perm (List.range p.numRegs)) ∧
    ((initMixRngState p seed).SrcSeq.length = p.numRegs ∧
      (initMixRngState p seed).DstSeq.length = p.numRegs) ∧
    ∀ v, v < p.numRegs →
      (initMixRngState p seed).SrcSeq.count v = 1 ∧
      (initMixRngState p seed).DstSeq.count v = 1 := by
  have hs := initMixRngState_src_perm p seed
  have hd := initMixRngState_dst_perm p seed
  refine ⟨⟨hs, hd⟩, initMixRngState_lengths p seed, ?_⟩
  · intro v hv
    exact ⟨by rw [hs.count_eq, count_range_of_lt _ _ hv],
      by rw [hd.count_eq, count_range_of_lt _ _ hv]⟩

/-! ## Epoch stability -/

/-- C3: two heights with the same `height / periodLength` give the same register
schedule inside `hashMix` and the same result of `hashMix`, for every cache, seed and
lookup function. -/
theorem hashMix_same_epoch (p : Params) (l1 : List Nat) (h1 h2 seed : Nat)
    (lookup : Nat → List Nat) (h : h1 / p.periodLength = h2 / p.periodLength) :
    initMixRngState p (h1 / p.periodLength) = initMixRngState p (h2 / p.periodLength) ∧
      hashMix p l1 h1 seed lookup = hashMix p l1 h2 seed lookup := by
  refine ⟨by rw [h], ?_⟩
  unfold hashMix hashMixWords
  rw [h]

theorem hashMix_same_epoch_witness :
    10 / sampleParams.periodLength = 19 / sampleParams.periodLength ∧
      initMixRngState sampleParams (10 / sampleParams.periodLength) =
        initMixRngState sampleParams (19 / sampleParams.periodLength) ∧
      hashMix sampleParams [] 10 7 (fun _ => []) = hashMix sampleParams [] 19 7 (fun _ => []) :=
  ⟨by decide, hashMix_same_epoch sampleParams [] 10 19 7 (fun _ => []) (by decide)⟩

/-! ## Register selection of the math branch -/

theorem mathSrc_fst (n c : Nat) : (mathSrc n c).1 = c % n := rfl

theorem mathSrc_snd (n c : Nat) (hn : n ≤ 4294967296) (hc : c < n * (n - 1)) :
    (mathSrc n c).2 = if c / n ≥ c % n then c / n + 1 else c / n := by
  have hq : c / n < n - 1 := by
    rw [Nat.div_lt_iff_lt_mul (by
      rcases Nat.eq_zero_or_pos n with h | h
      · subst h; simp at hc
      · exact h)]
    rwa [Nat.mul_comm]
  unfold mathSrc wrap32
  simp only
  split
  · exact Nat.mod_eq_of_lt (by omega)
  · rfl

theorem mathSrc_valid (n c : Nat) (hn : n ≤ 4294967296) (hc : c < n * (n - 1)) :
    (mathSrc n c).1 < n ∧ (mathSrc n c).2 < n ∧ (mathSrc n c).1 ≠ (mathSrc n c).2 := by
  have hpos : 0 < n := by
    rcases Nat.eq_zero_or_pos n with h | h
    · subst h; simp at hc
    · exact h
  have hq : c / n < n - 1 := by
    rw [Nat.div_lt_iff_lt_mul hpos]; rwa [Nat.mul_comm]
  have hr : c % n < n := Nat.mod_lt _ hpos
  rw [mathSrc_snd n c hn hc, mathSrc_fst]
  split <;> omega

theorem mathSrc_inj (n c c' : Nat) (hn : n ≤ 4294967296) (hc : c < n * (n - 1))
    (hc' : c' < n * (n - 1)) (h : mathSrc n c = mathSrc n c') : c = c' := by
  have h1 : c % n = c' % n := by
    have := congrArg Prod.fst h
    simpa [mathSrc_fst] using this
  have h2 := congrArg Prod.snd h
  rw [mathSrc_snd n c hn hc, mathSrc_snd n c' hn hc'] at h2
  have hq : c / n = c' / n := by
    split_ifs at h2 <;> omega
  rw [← Nat.div_add_mod c n, ← Nat.div_add_mod c' n, h1, hq]

theorem mathSrc_surj (n a b : Nat) (hn : n ≤ 4294967296) (ha : a < n) (hb : b < n)
    (hab : a ≠ b) : ∃ c, c < n * (n - 1) ∧ mathSrc n c = (a, b) := by
  have key : ∀ q, q < n - 1 → n * q + a < n * (n - 1) := by
    intro q hq
    have : n * (q + 1) ≤ n * (n - 1) := Nat.mul_le_mul_left n (by omega)
    rw [Nat.mul_add, Nat.mul_one] at this
    omega
  have hmod : ∀ q, (n * q + a) % n = a := fun q => by
    rw [Nat.mul_add_mod, Nat.mod_eq_of_lt ha]
  have hdiv : ∀ q, (n * q + a) / n = q := fun q => by
    rw [Nat.mul_add_div (by omega), Nat.div_eq_of_lt ha, Nat.add_zero]
  by_cases hlt : a < b
  · refine ⟨n * (b - 1) + a, key _ (by omega), ?_⟩
    apply Prod.ext
    · rw [mathSrc_fst, hmod]
    · rw [mathSrc_snd _ _ hn (key _ (by omega)), hmod, hdiv]
      simp only
      split <;> omega
  · refine ⟨n * b + a, key _ (by omega), ?_⟩
    apply Prod.ext
    · rw [mathSrc_fst, hmod]
    · rw [mathSrc_snd _ _ hn (key _ (by omega)), hmod, hdiv]
      simp only
      split <;> omega

/-- C4: for `2 ≤ numRegs` (a `uint32` constant), the selection of the math branch maps
the values `c < numRegs * (numRegs - 1)` one-to-one onto the ordered pairs of distinct
registers below `numRegs`; in particular the pair selected from any generator output
`x` has `src1 ≠ src2`, both below `numRegs`. -/
theorem mathSrc_bijection (n : Nat) (h2 : 2 ≤ n) (hn : n ≤ 4294967296) :
    (∀ c, c < n * (n - 1) →
      (mathSrc n c).1 < n ∧ (mathSrc n c).2 < n ∧ (mathSrc n c).1 ≠ (mathSrc n c).2) ∧
    (∀ c c', c < n * (n - 1) → c' < n * (n - 1) → mathSrc n c = mathSrc n c' → c = c') ∧
    (∀ a b, a < n → b < n → a ≠ b → ∃ c, c < n * (n - 1) ∧ mathSrc n c = (a, b)) ∧
    (∀ x, (mathSrc n (x % (n * (n - 1)))).1 < n ∧ (mathSrc n (x % (n * (n - 1)))).2 < n ∧
      (mathSrc n (x % (n * (n - 1)))).1 ≠ (mathSrc n (x % (n * (n - 1)))).2) := by
  have hpos : 0 < n * (n - 1) := Nat.mul_pos (by omega) (by omega)
  exact ⟨fun c hc => mathSrc_valid n c hn hc,
    fun c c' hc hc' h => mathSrc_inj n c c' hn hc hc' h,
    fun a b ha hb hab => mathSrc_surj n a b hn ha hb hab,
    fun x => mathSrc_valid n _ hn (Nat.mod_lt x hpos)⟩

theorem mathSrc_bijection_witness :
    (2 ≤ sampleParams.numRegs ∧ sampleParams.numRegs ≤ 4294967296) ∧
      mathSrc sampleParams.numRegs 165 = (5, 6) ∧
      ∀ x, (mathSrc 32 (x % (32 * (32 - 1)))).1 ≠ (mathSrc 32 (x % (32 * (32 - 1)))).2 :=
  ⟨by decide, by decide,
    fun x => ((mathSrc_bijection 32 (by decide) (by decide)).2.2.2 x).2.2⟩

/-! ## Cursor access -/

theorem nextDst_eq (p : Params) (s : MixRngState) (hn : 0 < p.numRegs)
    (hd : s.DstSeq.length = p.numRegs) :
    ∃ v, s.DstSeq[wrap32 (s.DstCounter + 1) % p.numRegs]? = some v ∧
      s.nextDst p = some (v, { s with DstCounter := wrap32 (s.DstCounter + 1) }) := by
  have hlt : wrap32 (s.DstCounter + 1) % p.numRegs < s.DstSeq.length := by
    rw [hd]; exact Nat.mod_lt _ hn
  refine ⟨s.DstSeq[wrap32 (s.DstCounter + 1) % p.numRegs], List.getElem?_eq_getElem hlt, ?_⟩
  unfold MixRngState.nextDst
  simp only [List.getElem?_eq_getElem hlt]

theorem nextSrc_eq (p : Params) (s : MixRngState) (hn : 0 < p.numRegs)
    (hd : s.SrcSeq.length = p.numRegs) :
    ∃ v, s.SrcSeq[wrap32 (s.SrcCounter + 1) % p.numRegs]? = some v ∧
      s.nextSrc p = some (v, { s with SrcCounter := wrap32 (s.SrcCounter + 1) }) := by
  have hlt : wrap32 (s.SrcCounter + 1) % p.numRegs < s.SrcSeq.length := by
    rw [hd]; exact Nat.mod_lt _ hn
  refine ⟨s.SrcSeq[wrap32 (s.SrcCounter + 1) % p.numRegs], List.getElem?_eq_getElem hlt, ?_⟩
  unfold MixRngState.nextSrc
  simp only [List.getElem?_eq_getElem hlt]

theorem initMixRngState_counters (p : Params) (seed : Nat) :
    (initMixRngState p seed).SrcCounter = 0 ∧ (initMixRngState p seed).DstCounter = 0 :=
  ⟨rfl, rfl⟩

/-- C5: on every schedule state (arrays of `numRegs > 0` entries), `nextDst` sets
`DstCounter` to `DstCounter + 1` modulo `2^32`, returns `DstSeq` at the new counter
modulo `numRegs` and changes nothing else; `nextSrc` does the same on `SrcCounter` and
`SrcSeq`. On a schedule returned by `initMixRngState` the first call of either returns
the entry at position `1 % numRegs`. -/
theorem next_cursor_spec (p : Params) (s : MixRngState) (hn : 0 < p.numRegs)
    (hs : s.SrcSeq.length = p.numRegs) (hd : s.DstSeq.length = p.numRegs) :
    (∃ v, s.DstSeq[(s.DstCounter + 1) % 4294967296 % p.numRegs]? = some v ∧
      s.nextDst p = some (v, ⟨s.SrcCounter, (s.DstCounter + 1) % 4294967296, s.SrcSeq,
        s.DstSeq, s.Rng⟩)) ∧
    (∃ v, s.SrcSeq[(s.SrcCounter + 1) % 4294967296 % p.numRegs]? = some v ∧
      s.nextSrc p = some (v, ⟨(s.SrcCounter + 1) % 4294967296, s.DstCounter, s.SrcSeq,
        s.DstSeq, s.Rng⟩)) ∧
    ∀ seed, ∃ a b,
      (initMixRngState p seed).DstSeq[1 % p.numRegs]? = some a ∧
      ((initMixRngState p seed).nextDst p).map Prod.fst = some a ∧
      (initMixRngState p seed).SrcSeq[1 % p.numRegs]? = some b ∧
      ((initMixRngState p seed).nextSrc p).map Prod.fst = some b := by
  refine ⟨nextDst_eq p s hn hd, nextSrc_eq p s hn hs, ?_⟩
  intro seed
  have hp := initMixRngState_lengths p seed
  obtain ⟨a, ha, ha'⟩ := nextDst_eq p (initMixRngState p seed) hn hp.2
  obtain ⟨b, hb, hb'⟩ := nextSrc_eq p (initMixRngState p seed) hn hp.1
  have h1 : wrap32 (0 + 1) = 1 := rfl
  rw [(initMixRngState_counters p seed).2, h1] at ha
  rw [(initMixRngState_counters p seed).1, h1] at hb
  exact ⟨a, b, ha, by rw [ha']; rfl, hb, by rw [hb']; rfl⟩

theorem next_cursor_spec_witness :
    (0 < sampleParams.numRegs ∧
      (initMixRngState sampleParams 0).SrcSeq.length = sampleParams.numRegs ∧
      (initMixRngState sampleParams 0).DstSeq.length = sampleParams.numRegs) ∧
    ∃ v, (initMixRngState sampleParams 0).DstSeq[
        ((initMixRngState sampleParams 0).DstCounter + 1) % 4294967296 %
          sampleParams.numRegs]? = some v ∧
      (initMixRngState sampleParams 0).nextDst sampleParams =
        some (v, ⟨(initMixRngState sampleParams 0).SrcCounter,
          ((initMixRngState sampleParams 0).DstCounter + 1) % 4294967296,
          (initMixRngState sampleParams 0).SrcSeq, (initMixRngState sampleParams 0).DstSeq,
          (initMixRngState sampleParams 0).Rng⟩) :=
  ⟨by decide, (next_cursor_spec sampleParams (initMixRngState sampleParams 0) (by decide)
    (by decide) (by decide)).1⟩

/-! ## Generic loop lemmas and shape invariants -/

theorem wrap32_of_lt (x : Nat) (h : x < 4294967296) : wrap32 x = x := Nat.mod_eq_of_lt h

theorem foldlM_inv {σ α : Type} (f : σ → α → Option σ) (Inv : σ → Prop) (xs : List α)
    (s : σ) (h0 : Inv s)
    (hstep : ∀ s a, a ∈ xs → Inv s → ∃ s', f s a = some s' ∧ Inv s') :
    ∃ s', xs.foldlM f s = some s' ∧ Inv s' := by
  induction xs generalizing s with
  | nil => exact ⟨s, rfl, h0⟩
  | cons a xs ih =>
    obtain ⟨s1, h1, hi1⟩ := hstep s a (List.mem_cons_self _ _) h0
    obtain ⟨s2, h2, hi2⟩ := ih s1 hi1 (fun s b hb hs => hstep s b (List.mem_cons_of_mem _ hb) hs)
    exact ⟨s2, by rw [List.foldlM_cons, h1]; exact h2, hi2⟩

theorem foldlM_range_inv {σ : Type} (f : σ → Nat → Option σ) (Inv : Nat → σ → Prop) (n : Nat)
    (s : σ) (h0 : Inv 0 s)
    (hstep : ∀ k s, k < n → Inv k s → ∃ s', f s k = some s' ∧ Inv (k + 1) s') :
    ∃ s', (List.range n).foldlM f s = some s' ∧ Inv n s' := by
  induction n with
  | zero => exact ⟨s, rfl, h0⟩
  | succ n ih =>
    obtain ⟨s1, h1, hi1⟩ := ih (fun k s hk hs => hstep k s (Nat.lt_succ_of_lt hk) hs)
    obtain ⟨s2, h2, hi2⟩ := hstep n s1 (Nat.lt_succ_self n) hi1
    refine ⟨s2, ?_, hi2⟩
    rw [List.range_succ, List.foldlM_append, h1]
    simp only [Option.bind_eq_bind, Option.some_bind, List.foldlM_cons, List.foldlM_nil, h2]
    rfl

theorem foldlM_pres {σ α : Type} (f : σ → α → Option σ) (Inv : σ → Prop) (xs : List α)
    (s s' : σ) (hstep : ∀ s a s', f s a = some s' → Inv s → Inv s') (h0 : Inv s)
    (h : xs.foldlM f s = some s') : Inv s' := by
  induction xs generalizing s with
  | nil =>
    simp only [List.foldlM_nil, Option.pure_def, Option.some.injEq] at h
    exact h ▸ h0
  | cons a xs ih =>
    rw [List.foldlM_cons] at h
    simp only [Option.bind_eq_bind, Option.bind_eq_some] at h
    obtain ⟨s1, h1, h2⟩ := h
    exact ih s1 (hstep s a s1 h1 h0) h2

theorem foldlM_id {σ α : Type} (f : σ → α → Option σ) (xs : List α) (s : σ)
    (h : ∀ s a, f s a = some s) : xs.foldlM f s = some s := by
  induction xs with
  | nil => rfl
  | cons a xs ih => rw [List.foldlM_cons, h]; exact ih

/-! ## Position read by the cursors -/

theorem calls_counters (p : Params) (hn : 0 < p.numRegs) (cs : List Bool) (s : MixRngState)
    (hs : s.SrcSeq.length = p.numRegs) (hd : s.DstSeq.length = p.numRegs)
    (hcs : s.SrcCounter + cs.count false < 4294967296)
    (hcd : s.DstCounter + cs.count true < 4294967296) :
    MixRngState.calls p cs s = some ⟨s.SrcCounter + cs.count false,
      s.DstCounter + cs.count true, s.SrcSeq, s.DstSeq, s.Rng⟩ := by
  induction cs generalizing s with
  | nil => simp [MixRngState.calls]
  | cons c cs ih =>
    cases c with
    | true =>
      obtain ⟨v, _, hv⟩ := nextDst_eq p s hn hd
      simp only [List.count_cons_self, List.count_cons_of_ne (by decide : false ≠ true)
        ] at hcs hcd ⊢
      have hw : wrap32 (s.DstCounter + 1) = s.DstCounter + 1 := wrap32_of_lt _ (by omega)
      rw [hw] at hv
      unfold MixRngState.calls
      rw [hv]
      simp only
      rw [ih ⟨s.SrcCounter, s.DstCounter + 1, s.SrcSeq, s.DstSeq, s.Rng⟩ hs hd hcs
        (by simp only; omega)]
      simp only [MixRngState.mk.injEq, Option.some.injEq, and_true, true_and]
      omega
    | false =>
      obtain ⟨v, _, hv⟩ := nextSrc_eq p s hn hs
      simp only [List.count_cons_self, List.count_cons_of_ne (by decide : true ≠ false)
        ] at hcs hcd ⊢
      have hw : wrap32 (s.SrcCounter + 1) = s.SrcCounter + 1 := wrap32_of_lt _ (by omega)
      rw [hw] at hv
      unfold MixRngState.calls
      rw [hv]
      simp only
      rw [ih ⟨s.SrcCounter + 1, s.DstCounter, s.SrcSeq, s.DstSeq, s.Rng⟩ hs hd
        (by simp only; omega) hcd]
      simp only [MixRngState.mk.injEq, Option.some.injEq, and_true, true_and]
      omega

/-- C6 (as stated, refuted): on the schedule `initMixRngState sampleParams 0`, after 31
calls of `nextDst` the next call computes index `0` and returns `DstSeq[0] = 18`. -/
theorem cursor_reads_position_zero :
    ((MixRngState.calls sampleParams (List.replicate 31 true)
        (initMixRngState sampleParams 0)).map
      (fun s => wrap32 (s.DstCounter + 1) % sampleParams.numRegs) = some 0) ∧
    ((MixRngState.calls sampleParams (List.replicate 31 true)
        (initMixRngState sampleParams 0)).bind
      (fun s => (s.nextDst sampleParams).map Prod.fst) = some 18) ∧
    (initMixRngState sampleParams 0).DstSeq[0]? = some 18 := by
  decide

/-- C6 (amended): starting from a schedule returned by `initMixRngState`, after any
sequence `cs` of earlier `nextSrc` / `nextDst` calls (fewer than `2^32 - 1`), the next
`nextDst` returns `DstSeq` at position `(number of earlier nextDst calls + 1) % numRegs`
and the next `nextSrc` returns `SrcSeq` at position
`(number of earlier nextSrc calls + 1) % numRegs`; that position is `0` exactly when
`numRegs` divides the number of the call. -/
theorem cursor_position (p : Params) (seed : Nat) (cs : List Bool) (hn : 0 < p.numRegs)
    (hlen : cs.length + 1 < 4294967296) :
    ∃ s, MixRngState.calls p cs (initMixRngState p seed) = some s ∧
      (s.nextDst p).map Prod.fst =
        (initMixRngState p seed).DstSeq[(cs.count true + 1) % p.numRegs]? ∧
      (s.nextSrc p).map Prod.fst =
        (initMixRngState p seed).SrcSeq[(cs.count false + 1) % p.numRegs]? ∧
      ((cs.count true + 1) % p.numRegs = 0 ↔ p.numRegs ∣ cs.count true + 1) ∧
      ((cs.count false + 1) % p.numRegs = 0 ↔ p.numRegs ∣ cs.count false + 1) := by
  have hl := initMixRngState_lengths p seed
  have h1 : cs.count true ≤ cs.length := List.count_le_length _ _
  have h2 : cs.count false ≤ cs.length := List.count_le_length _ _
  have hc := calls_counters p hn cs (initMixRngState p seed) hl.1 hl.2
    (by rw [(initMixRngState_counters p seed).1]; omega)
    (by rw [(initMixRngState_counters p seed).2]; omega)
  rw [(initMixRngState_counters p seed).1, (initMixRngState_counters p seed).2] at hc
  refine ⟨_, hc, ?_, ?_, Nat.dvd_iff_mod_eq_zero.symm, Nat.dvd_iff_mod_eq_zero.symm⟩
  · obtain ⟨v, hv, hv'⟩ := nextDst_eq p ⟨0 + cs.count false, 0 + cs.count true,
      (initMixRngState p seed).SrcSeq, (initMixRngState p seed).DstSeq,
      (initMixRngState p seed).Rng⟩ hn hl.2
    rw [hv']
    simp only [Nat.zero_add] at hv
    rw [wrap32_of_lt _ (by omega)] at hv
    rw [hv]; rfl
  · obtain ⟨v, hv, hv'⟩ := nextSrc_eq p ⟨0 + cs.count false, 0 + cs.count true,
      (initMixRngState p seed).SrcSeq, (initMixRngState p seed).DstSeq,
      (initMixRngState p seed).Rng⟩ hn hl.1
    rw [hv']
    simp only [Nat.zero_add] at hv
    rw [wrap32_of_lt _ (by omega)] at hv
    rw [hv]; rfl

theorem cursor_position_witness :
    (0 < sampleParams.numRegs ∧ [true, false, true].length + 1 < 4294967296) ∧
    ∃ s, MixRngState.calls sampleParams [true, false, true]
        (initMixRngState sampleParams 0) = some s ∧
      (s.nextDst sampleParams).map Prod.fst =
        (initMixRngState sampleParams 0).DstSeq[
          ([true, false, true].count true + 1) % sampleParams.numRegs]? ∧
      (s.nextSrc sampleParams).map Prod.fst =
        (initMixRngState sampleParams 0).SrcSeq[
          ([true, false, true].count false + 1) % sampleParams.numRegs]? ∧
      (([true, false, true].count true + 1) % sampleParams.numRegs = 0 ↔
        sampleParams.numRegs ∣ [true, false, true].count true + 1) ∧
      (([true, false, true].count false + 1) % sampleParams.numRegs = 0 ↔
        sampleParams.numRegs ∣ [true, false, true].count false + 1) :=
  ⟨by decide, cursor_position sampleParams 0 [true, false, true] (by decide) (by decide)⟩

/-! ## Totality -/

theorem getReg_some (p : Params) (mix : MixArray) (l r : Nat) (hm : MixOK p mix)
    (hl : l < p.numLanes) (hr : r < p.numRegs) : ∃ v, getReg mix l r = some v := by
  have hl' : l < mix.length := by rw [hm.1]; exact hl
  have hrow : mix[l].length = p.numRegs := hm.2 _ (List.getElem_mem hl')
  refine ⟨mix[l][r], ?_⟩
  unfold getReg
  rw [List.getElem?_eq_getElem hl']
  simp only
  exact List.getElem?_eq_getElem (by rw [hrow]; exact hr)

theorem setReg_some (p : Params) (mix : MixArray) (l r v : Nat) (hm : MixOK p mix)
    (hl : l < p.numLanes) (hr : r < p.numRegs) :
    ∃ m, setReg mix l r v = some m ∧ MixOK p m := by
  have hl' : l < mix.length := by rw [hm.1]; exact hl
  have hrow : mix[l].length = p.numRegs := hm.2 _ (List.getElem_mem hl')
  refine ⟨mix.set l (mix[l].set r v), ?_, ?_, ?_⟩
  · unfold setReg
    rw [List.getElem?_eq_getElem hl']
    simp only
    rw [if_pos (by rw [hrow]; exact hr)]
  · rw [List.length_set]; exact hm.1
  · intro row hrow'
    rcases List.mem_or_eq_of_mem_set hrow' with h | h
    · exact hm.2 _ h
    · rw [h, List.length_set]; exact hrow

theorem cacheLane_ok (p : Params) (l1 : List Nat) (src dst sel : Nat) (mix : MixArray) (l : Nat)
    (hN : 0 < p.l1CacheNumItems) (hl1 : p.l1CacheNumItems ≤ l1.length)
    (hm : MixOK p mix) (hl : l < p.numLanes) (hs : src < p.numRegs) (hd : dst < p.numRegs) :
    ∃ m, cacheLane p l1 src dst sel mix l = some m ∧ MixOK p m := by
  obtain ⟨a, ha⟩ := getReg_some p mix l src hm hl hs
  obtain ⟨d, hd'⟩ := getReg_some p mix l dst hm hl hd
  have hoff : a % p.l1CacheNumItems < l1.length :=
    Nat.lt_of_lt_of_le (Nat.mod_lt _ hN) hl1
  obtain ⟨m, hm1, hm2⟩ := setReg_some p mix l dst
    (p.randomMerge d l1[a % p.l1CacheNumItems] sel) hm hl hd
  refine ⟨m, ?_, hm2⟩
  unfold cacheLane
  simp only [ha, hd', List.getElem?_eq_getElem hoff, Option.bind_eq_bind, Option.some_bind]
  exact hm1

theorem mathLane_ok (p : Params) (src1 src2 sel1 dst sel2 : Nat) (mix : MixArray) (l : Nat)
    (hm : MixOK p mix) (hl : l < p.numLanes) (h1 : src1 < p.numRegs) (h2 : src2 < p.numRegs)
    (hd : dst < p.numRegs) :
    ∃ m, mathLane p src1 src2 sel1 dst sel2 mix l = some m ∧ MixOK p m := by
  obtain ⟨a, ha⟩ := getReg_some p mix l src1 hm hl h1
  obtain ⟨b, hb⟩ := getReg_some p mix l src2 hm hl h2
  obtain ⟨d, hd'⟩ := getReg_some p mix l dst hm hl hd
  obtain ⟨m, hm1, hm2⟩ := setReg_some p mix l dst
    (p.randomMerge d (p.randomMath a b sel1) sel2) hm hl hd
  refine ⟨m, ?_, hm2⟩
  unfold mathLane
  simp only [ha, hb, hd', Option.bind_eq_bind, Option.some_bind]
  exact hm1

theorem nextDst_ok (p : Params) (s : MixRngState) (hn : 0 < p.numRegs) (hs : SchedOK p s) :
    ∃ v s', s.nextDst p = some (v, s') ∧ v < p.numRegs ∧ SchedOK p s' := by
  obtain ⟨v, hv, hv'⟩ := nextDst_eq p s hn hs.1.2
  exact ⟨v, _, hv', hs.2.2 v (List.getElem?_mem hv), hs⟩

theorem nextSrc_ok (p : Params) (s : MixRngState) (hn : 0 < p.numRegs) (hs : SchedOK p s) :
    ∃ v s', s.nextSrc p = some (v, s') ∧ v < p.numRegs ∧ SchedOK p s' := by
  obtain ⟨v, hv, hv'⟩ := nextSrc_eq p s hn hs.1.1
  exact ⟨v, _, hv', hs.2.1 v (List.getElem?_mem hv), hs⟩

theorem cacheOp_ok (p : Params) (l1 : List Nat) (acc : MixArray × MixRngState) (hp : p.WF)
    (hl1 : p.l1CacheNumItems ≤ l1.length) (hm : MixOK p acc.1) (hs : SchedOK p acc.2) :
    ∃ r, cacheOp p l1 acc = some r ∧ MixOK p r.1 ∧ SchedOK p r.2 := by
  have hn : 0 < p.numRegs := Nat.lt_of_lt_of_le (by decide) hp.regs_ge
  have hN : 0 < p.l1CacheNumItems := Nat.lt_of_lt_of_le (by decide) hp.items_ge
  obtain ⟨src, st1, e1, hsrc, hs1⟩ := nextSrc_ok p acc.2 hn hs
  obtain ⟨dst, st2, e2, hdst, hs2⟩ := nextDst_ok p st1 hn hs1
  obtain ⟨m, em, hm'⟩ := foldlM_inv (cacheLane p l1 src dst st2.Rng.Next.1) (MixOK p)
    (List.range p.numLanes) acc.1 hm
    (fun s l hl hs => cacheLane_ok p l1 src dst _ s l hN hl1 hs (List.mem_range.mp hl) hsrc hdst)
  refine ⟨(m, { st2 with Rng := st2.Rng.Next.2 }), ?_, hm', hs2⟩
  unfold cacheOp
  simp only [e1, e2, em, Option.bind_eq_bind, Option.some_bind, Option.pure_def]

theorem mathOp_ok (p : Params) (acc : MixArray × MixRngState) (hp : p.WF)
    (hm : MixOK p acc.1) (hs : SchedOK p acc.2) :
    ∃ r, mathOp p acc = some r ∧ MixOK p r.1 ∧ SchedOK p r.2 := by
  have hn : 0 < p.numRegs := Nat.lt_of_lt_of_le (by decide) hp.regs_ge
  have hpos : 0 < p.numRegs * (p.numRegs - 1) :=
    Nat.mul_pos hn (Nat.sub_pos_of_lt hp.regs_ge)
  have hv := mathSrc_valid p.numRegs (acc.2.Rng.Next.1 % (p.numRegs * (p.numRegs - 1)))
    hp.regs_le (Nat.mod_lt _ hpos)
  obtain ⟨dst, st1, e1, hdst, hs1⟩ := nextDst_ok p
    ({ acc.2 with Rng := acc.2.Rng.Next.2.Next.2 } : MixRngState) hn hs
  obtain ⟨m, em, hm'⟩ := foldlM_inv
    (mathLane p (mathSrc p.numRegs (acc.2.Rng.Next.1 % (p.numRegs * (p.numRegs - 1)))).1
      (mathSrc p.numRegs (acc.2.Rng.Next.1 % (p.numRegs * (p.numRegs - 1)))).2
      acc.2.Rng.Next.2.Next.1 dst st1.Rng.Next.1) (MixOK p)
    (List.range p.numLanes) acc.1 hm
    (fun s l hl hs => mathLane_ok p _ _ _ dst _ s l hs (List.mem_range.mp hl) hv.1 hv.2.1 hdst)
  refine ⟨(m, { st1 with Rng := st1.Rng.Next.2 }), ?_, hm', hs1⟩
  unfold mathOp
  simp only [e1, em, Option.bind_eq_bind, Option.some_bind, Option.pure_def]

theorem roundStep_ok (p : Params) (l1 : List Nat) (acc : MixArray × MixRngState) (i : Nat)
    (hp : p.WF) (hl1 : p.l1CacheNumItems ≤ l1.length) (hm : MixOK p acc.1)
    (hs : SchedOK p acc.2) :
    ∃ r, roundStep p l1 acc i = some r ∧ MixOK p r.1 ∧ SchedOK p r.2 := by
  have h1 : ∃ r, (if i < p.numCacheAccesses then cacheOp p l1 acc else some acc) = some r ∧
      MixOK p r.1 ∧ SchedOK p r.2 := by
    split
    · exact cacheOp_ok p l1 acc hp hl1 hm hs
    · exact ⟨acc, rfl, hm, hs⟩
  obtain ⟨r1, e1, hm1, hs1⟩ := h1
  have h2 : ∃ r, (if i < p.numMathOperations then mathOp p r1 else some r1) = some r ∧
      MixOK p r.1 ∧ SchedOK p r.2 := by
    split
    · exact mathOp_ok p r1 hp hm1 hs1
    · exact ⟨r1, rfl, hm1, hs1⟩
  obtain ⟨r2, e2, hm2, hs2⟩ := h2
  refine ⟨r2, ?_, hm2, hs2⟩
  unfold roundStep
  rw [e1]
  exact e2

theorem dagStep_ok (p : Params) (n : Nat) (acc : (List Nat × List Nat) × MixRngState) (i : Nat)
    (hn : 0 < p.numRegs) (hi : i < n) (h : DagOK p n acc) :
    ∃ r, dagStep p acc i = some r ∧ DagOK p n r := by
  have h1 : ∃ d st, (if i = 0 then some (0, acc.2) else acc.2.nextDst p) = some (d, st) ∧
      d < p.numRegs ∧ SchedOK p st := by
    split
    · exact ⟨0, acc.2, rfl, hn, h.2.2⟩
    · exact nextDst_ok p acc.2 hn h.2.2
  obtain ⟨d, st, e1, hd, hst⟩ := h1
  refine ⟨((acc.1.1.set i d, acc.1.2.set i st.Rng.Next.1), { st with Rng := st.Rng.Next.2 }),
    ?_, ⟨by simpa using h.1.1, by simpa using h.1.2⟩, ?_, hst⟩
  · unfold dagStep
    rw [e1]
    simp only [Option.bind_eq_bind, Option.some_bind]
    rw [if_pos ⟨by rw [h.1.1]; exact hi, by rw [h.1.2]; exact hi⟩]
  · intro x hx
    rcases List.mem_or_eq_of_mem_set hx with hx | hx
    · exact h.2.1 x hx
    · rw [hx]; exact hd

theorem item_index_lt (numLanes k wpl i len : Nat) (hk : k < numLanes) (hi : i < wpl)
    (hw : wpl = len / numLanes) :
    wrap32 (wrap32 (k * wrap32 wpl) + wrap32 i) < len := by
  by_cases hlen : len < 4294967296
  · have hle : numLanes * wpl ≤ len := by rw [hw]; exact Nat.mul_div_le len numLanes
    have h1 : (k + 1) * wpl ≤ numLanes * wpl := Nat.mul_le_mul_right wpl hk
    have h2 : k * wpl + i < (k + 1) * wpl := by rw [Nat.add_mul, Nat.one_mul]; omega
    have hwl : wpl ≤ len := by rw [hw]; exact Nat.div_le_self len numLanes
    rw [wrap32_of_lt wpl (by omega), wrap32_of_lt i (by omega),
      wrap32_of_lt (k * wpl) (by omega), wrap32_of_lt _ (by omega)]
    omega
  · have : wrap32 (wrap32 (k * wrap32 wpl) + wrap32 i) < 4294967296 :=
      Nat.mod_lt _ (by decide)
    omega

theorem dagWord_ok (p : Params) (item dsts sels : List Nat) (k l : Nat) (mix : MixArray)
    (i n : Nat) (hk : k < p.numLanes) (hi : i < n) (hw : n = item.length / p.numLanes)
    (hl : l < p.numLanes) (hdl : dsts.length = n) (hsl : sels.length = n)
    (hd : ∀ d, d ∈ dsts → d < p.numRegs) (hm : MixOK p mix) :
    ∃ m, dagWord p item dsts sels (wrap32 (k * wrap32 n)) l mix i = some m ∧ MixOK p m := by
  have hidx := item_index_lt p.numLanes k n i item.length hk hi hw
  have hid : i < dsts.length := by rw [hdl]; exact hi
  have his : i < sels.length := by rw [hsl]; exact hi
  have hdst : dsts[i] < p.numRegs := hd _ (List.getElem_mem hid)
  obtain ⟨d, hd'⟩ := getReg_some p mix l dsts[i] hm hl hdst
  obtain ⟨m, hm1, hm2⟩ := setReg_some p mix l dsts[i]
    (p.randomMerge d item[wrap32 (wrap32 (k * wrap32 n) + wrap32 i)] sels[i]) hm hl hdst
  refine ⟨m, ?_, hm2⟩
  unfold dagWord
  simp only [List.getElem?_eq_getElem hidx, List.getElem?_eq_getElem hid,
    List.getElem?_eq_getElem his, hd', Option.bind_eq_bind, Option.some_bind]
  exact hm1

theorem dagLane_ok (p : Params) (r : Nat) (item dsts sels : List Nat) (n : Nat)
    (mix : MixArray) (l : Nat) (hp : p.WF) (hw : n = item.length / p.numLanes)
    (hl : l < p.numLanes) (hdl : dsts.length = n) (hsl : sels.length = n)
    (hd : ∀ d, d ∈ dsts → d < p.numRegs) (hm : MixOK p mix) :
    ∃ m, dagLane p r item dsts sels n mix l = some m ∧ MixOK p m := by
  unfold dagLane
  exact foldlM_inv _ (MixOK p) (List.range n) mix hm
    (fun s i hi hs => dagWord_ok p item dsts sels _ l s i n (Nat.mod_lt _ hp.lanes_pos)
      (List.mem_range.mp hi) hw hl hdl hsl hd hs)

theorem round_ok (p : Params) (l1 : List Nat) (r : Nat) (mix : MixArray) (state : MixRngState)
    (lookup : Nat → List Nat) (hp : p.WF) (hl1 : p.l1CacheNumItems ≤ l1.length)
    (hm : MixOK p mix) (hs : SchedOK p state) :
    ∃ res, round p l1 r mix state lookup = some res ∧ MixOK p res.1 ∧ SchedOK p res.2 := by
  have hn : 0 < p.numRegs := Nat.lt_of_lt_of_le (by decide) hp.regs_ge
  have hitems : p.l1CacheNumItems / 2 ≠ 0 := by
    have := hp.items_ge; omega
  obtain ⟨m0, e0⟩ := getReg_some p mix (r % p.numLanes) 0 hm (Nat.mod_lt _ hp.lanes_pos) hn
  generalize hitem : lookup (m0 % (p.l1CacheNumItems / 2)) = item
  obtain ⟨acc, ea, hma, hsa⟩ := foldlM_inv (roundStep p l1)
    (fun a => MixOK p a.1 ∧ SchedOK p a.2)
    (List.range (max p.numCacheAccesses p.numMathOperations)) (mix, state) ⟨hm, hs⟩
    (fun s i _ hs => roundStep_ok p l1 s i hp hl1 hs.1 hs.2)
  obtain ⟨dag, ed, hdag⟩ := foldlM_inv (dagStep p) (DagOK p (item.length / p.numLanes))
    (List.range (item.length / p.numLanes))
    ((List.replicate (item.length / p.numLanes) 0, List.replicate (item.length / p.numLanes) 0),
      acc.2)
    ⟨⟨by simp, by simp⟩, fun d hd => by rw [(List.mem_replicate.mp hd).2]; exact hn, hsa⟩
    (fun s i hi hs => dagStep_ok p _ s i hn (List.mem_range.mp hi) hs)
  obtain ⟨m1, e1, hm1⟩ := foldlM_inv
    (dagLane p r item dag.1.1 dag.1.2 (item.length / p.numLanes)) (MixOK p)
    (List.range p.numLanes) acc.1 hma
    (fun s l hl hs => dagLane_ok p r item _ _ _ s l hp rfl (List.mem_range.mp hl)
      hdag.1.1 hdag.1.2 hdag.2.1 hs)
  refine ⟨(m1, dag.2), ?_, hm1, hdag.2.2⟩
  unfold round
  simp only [e0, if_neg hitems, hitem, ea, ed, e1, Option.bind_eq_bind, Option.some_bind,
    Option.pure_def]

theorem rounds_ok (p : Params) (l1 : List Nat) (lookup : Nat → List Nat)
    (acc : MixArray × MixRngState) (hp : p.WF) (hl1 : p.l1CacheNumItems ≤ l1.length)
    (hm : MixOK p acc.1) (hs : SchedOK p acc.2) :
    ∃ res, rounds p l1 lookup acc = some res ∧ MixOK p res.1 ∧ SchedOK p res.2 := by
  unfold rounds
  exact foldlM_inv _ (fun a => MixOK p a.1 ∧ SchedOK p a.2) (List.range 64) acc ⟨hm, hs⟩
    (fun s i _ hs => round_ok p l1 (wrap32 i) s.1 s.2 lookup hp hl1 hs.1 hs.2)

theorem fillRow_length (n : Nat) (k : Kiss99) : (fillRow n k).length = n := by
  induction n generalizing k with
  | zero => rfl
  | succ n ih => simp [fillRow, ih]

theorem initMix_ok (p : Params) (seed : Nat) : MixOK p (initMix p seed) := by
  refine ⟨by simp [initMix], ?_⟩
  intro row hrow
  simp only [initMix, List.mem_map] at hrow
  obtain ⟨l, _, rfl⟩ := hrow
  exact fillRow_length _ _

theorem initMixRngState_ok (p : Params) (seed : Nat) : SchedOK p (initMixRngState p seed) := by
  refine ⟨initMixRngState_lengths p seed, ?_, ?_⟩
  · intro v hv
    exact List.mem_range.mp ((initMixRngState_src_perm p seed).mem_iff.mp hv)
  · intro v hv
    exact List.mem_range.mp ((initMixRngState_dst_perm p seed).mem_iff.mp hv)

theorem laneHashes_some (p : Params) (mix : MixArray) (hm : MixOK p mix) :
    ∃ lh, laneHashes p mix = some lh ∧ lh.length = p.numLanes := by
  unfold laneHashes
  refine foldlM_inv _ (fun (lh : List Nat) => lh.length = p.numLanes) (List.range p.numLanes) _
    (by simp) ?_
  intro lh l hl hlen
  have hl' : l < p.numLanes := List.mem_range.mp hl
  simp only [if_pos (show l < lh.length by rw [hlen]; exact hl'), Option.bind_eq_bind,
    Option.some_bind]
  refine foldlM_inv _ (fun (lh : List Nat) => lh.length = p.numLanes) (List.range p.numRegs) _
    (by simpa using hlen) ?_
  intro s i hi hs
  obtain ⟨v, hv⟩ := getReg_some p mix l i hm hl' (List.mem_range.mp hi)
  refine ⟨s.set l (p.fnv1a s[l] v), ?_, by simpa using hs⟩
  simp only [List.getElem?_eq_getElem (show l < s.length by rw [hs]; exact hl'), hv,
    Option.bind_eq_bind, Option.some_bind, Option.pure_def]

theorem mixHash_init (b : Nat) :
    (List.range 8).foldl (fun m i => m.set i b) (List.replicate 8 0) = List.replicate 8 b := by
  rfl

theorem mixHashOf_some (p : Params) (lh : List Nat) (hlen : lh.length = p.numLanes) :
    ∃ ws, mixHashOf p lh = some ws ∧ ws.length = 8 := by
  unfold mixHashOf
  simp only [mixHash_init]
  refine foldlM_inv _ (fun (ws : List Nat) => ws.length = 8) (List.range p.numLanes) _ (by simp) ?_
  intro ws l hl hws
  have h8 : l % 8 < ws.length := by rw [hws]; exact Nat.mod_lt _ (by decide)
  have hl' : l < lh.length := by rw [hlen]; exact List.mem_range.mp hl
  refine ⟨ws.set (l % 8) (p.fnv1a ws[l % 8] lh[l]), ?_, by simpa using hws⟩
  simp only [List.getElem?_eq_getElem h8, List.getElem?_eq_getElem hl', Option.bind_eq_bind,
    Option.some_bind, Option.pure_def]

/-- With well-formed constants and a cache of at least `l1CacheNumItems` words, `hashMix`
returns a digest. -/
theorem hashMix_some (p : Params) (l1 : List Nat) (height seed : Nat) (lookup : Nat → List Nat)
    (hp : p.WF) (hl1 : p.l1CacheNumItems ≤ l1.length) :
    ∃ digest, hashMix p l1 height seed lookup = some digest := by
  obtain ⟨acc, ea, hma, _⟩ := rounds_ok p l1 lookup
    (initMix p seed, initMixRngState p (height / p.periodLength)) hp hl1
    (initMix_ok p seed) (initMixRngState_ok p _)
  obtain ⟨lh, el, hlen⟩ := laneHashes_some p acc.1 hma
  obtain ⟨ws, ew, _⟩ := mixHashOf_some p lh hlen
  refine ⟨p.uint32Array2ByteArray ws, ?_⟩
  unfold hashMix hashMixWords
  simp only [ea, el, ew, Option.bind_eq_bind, Option.some_bind, Option.map_some']

theorem sampleParams_wf : sampleParams.WF :=
  ⟨by decide, by decide, by decide, by decide⟩

theorem foldlM_range_succ_none {σ : Type} (f : σ → Nat → Option σ) (n : Nat) (s : σ)
    (h : f s 0 = none) : (List.range (n + 1)).foldlM f s = none := by
  rw [List.range_succ_eq_map, List.foldlM_cons, h]
  rfl

theorem cacheLane_empty_cache (p : Params) (src dst sel : Nat) (mix : MixArray) (l : Nat) :
    cacheLane p [] src dst sel mix l = none := by
  unfold cacheLane
  cases getReg mix l src with
  | none => rfl
  | some a =>
    cases getReg mix l dst with
    | none => rfl
    | some d => rfl

theorem cacheOp_empty_cache (p : Params) (acc : MixArray × MixRngState)
    (hl : 0 < p.numLanes) : cacheOp p [] acc = none := by
  obtain ⟨n, hn⟩ := Nat.exists_eq_succ_of_ne_zero (Nat.pos_iff_ne_zero.mp hl)
  unfold cacheOp
  cases acc.2.nextSrc p with
  | none => rfl
  | some src =>
    simp only [Option.bind_eq_bind, Option.some_bind]
    cases src.2.nextDst p with
    | none => rfl
    | some dst =>
      simp only [Option.some_bind, hn]
      rw [foldlM_range_succ_none _ _ _ (cacheLane_empty_cache p _ _ _ _ _)]
      rfl

theorem round_empty_cache (p : Params) (r : Nat) (mix : MixArray) (state : MixRngState)
    (lookup : Nat → List Nat) (hl : 0 < p.numLanes) (hc : 0 < p.numCacheAccesses) :
    round p [] r mix state lookup = none := by
  unfold round
  cases getReg mix (r % p.numLanes) 0 with
  | none => rfl
  | some m0 =>
    by_cases hz : p.l1CacheNumItems / 2 = 0
    · simp only [if_pos hz, Option.bind_eq_bind, Option.some_bind, Option.none_bind]
    · have hmax : max p.numCacheAccesses p.numMathOperations ≠ 0 := by
        have := Nat.le_max_left p.numCacheAccesses p.numMathOperations
        omega
      obtain ⟨n, hn⟩ := Nat.exists_eq_succ_of_ne_zero hmax
      have hstep : roundStep p [] (mix, state) 0 = none := by
        unfold roundStep
        rw [if_pos hc, cacheOp_empty_cache p _ hl]
        rfl
      simp only [if_neg hz, Option.bind_eq_bind, Option.some_bind, hn]
      rw [foldlM_range_succ_none _ _ _ hstep]
      rfl

/-- With the empty cache, `hashMix` faults in its first round, whatever the constants
(at least one lane and one cache access per round). -/
theorem hashMix_empty_cache (p : Params) (height seed : Nat) (lookup : Nat → List Nat)
    (hl : 0 < p.numLanes) (hc : 0 < p.numCacheAccesses) :
    hashMix p [] height seed lookup = none := by
  have h : rounds p [] lookup (initMix p seed, initMixRngState p (height / p.periodLength)) =
      none := by
    unfold rounds
    exact foldlM_range_succ_none _ 63 _ (round_empty_cache p _ _ _ lookup hl hc)
  unfold hashMix hashMixWords
  simp only [h, Option.bind_eq_bind, Option.none_bind, Option.map_none']

/-- C7 (as stated, refuted): with the empty cache `hashMix` faults, in the first cache
access `l1[offset]` of the first round. -/
theorem hashMix_empty_cache_faults :
    hashMix sampleParams [] 0 0 (fun _ => []) = none := by
  decide

/-- C7 (amended): for well-formed constants, every cache of at least `l1CacheNumItems`
words, every height, seed and lookup function (items of any length), `hashMix` returns a
digest; and `round` on a well-shaped mix state and schedule returns a well-shaped mix
state and schedule, so no index is out of range and no divisor is zero. -/
theorem hashMix_total (p : Params) (l1 : List Nat) (height seed : Nat)
    (lookup : Nat → List Nat) (hp : p.WF) (hl1 : p.l1CacheNumItems ≤ l1.length) :
    (∃ digest, hashMix p l1 height seed lookup = some digest) ∧
    ∀ r mix state, MixOK p mix → SchedOK p state →
      ∃ res, round p l1 r mix state lookup = some res ∧ MixOK p res.1 ∧ SchedOK p res.2 :=
  ⟨hashMix_some p l1 height seed lookup hp hl1,
    fun r mix state hm hs => round_ok p l1 r mix state lookup hp hl1 hm hs⟩

theorem hashMix_total_witness :
    (sampleParams.WF ∧ sampleParams.l1CacheNumItems ≤ (List.replicate 4096 7).length) ∧
    ∃ digest, hashMix sampleParams (List.replicate 4096 7) 25 3
      (fun i => List.replicate 100 i) = some digest :=
  ⟨⟨sampleParams_wf, (List.length_replicate 4096 7).ge⟩,
    (hashMix_total sampleParams (List.replicate 4096 7) 25 3 (fun i => List.replicate 100 i)
      sampleParams_wf (List.length_replicate 4096 7).ge).1⟩

/-! ## Shape preservation -/

theorem setReg_shape (p : Params) (mix m : MixArray) (l r v : Nat)
    (h : setReg mix l r v = some m) (hm : MixOK p mix) : MixOK p m := by
  unfold setReg at h
  split at h
  · rename_i row hrow
    split at h
    · simp only [Option.some.injEq] at h
      subst h
      refine ⟨by rw [List.length_set]; exact hm.1, ?_⟩
      intro row' hrow'
      rcases List.mem_or_eq_of_mem_set hrow' with h' | h'
      · exact hm.2 _ h'
      · rw [h', List.length_set]; exact hm.2 _ (List.getElem?_mem hrow)
    · exact absurd h (by simp)
  · exact absurd h (by simp)

theorem cacheLane_shape (p : Params) (l1 : List Nat) (src dst sel : Nat) (mix m : MixArray)
    (l : Nat) (h : cacheLane p l1 src dst sel mix l = some m) (hm : MixOK p mix) :
    MixOK p m := by
  unfold cacheLane at h
  simp only [Option.bind_eq_bind, Option.bind_eq_some] at h
  obtain ⟨_, _, _, _, _, _, h⟩ := h
  exact setReg_shape p _ _ _ _ _ h hm

theorem mathLane_shape (p : Params) (src1 src2 sel1 dst sel2 : Nat) (mix m : MixArray)
    (l : Nat) (h : mathLane p src1 src2 sel1 dst sel2 mix l = some m) (hm : MixOK p mix) :
    MixOK p m := by
  unfold mathLane at h
  simp only [Option.bind_eq_bind, Option.bind_eq_some] at h
  obtain ⟨_, _, _, _, _, _, h⟩ := h
  exact setReg_shape p _ _ _ _ _ h hm

theorem cacheOp_shape (p : Params) (l1 : List Nat) (acc res : MixArray × MixRngState)
    (h : cacheOp p l1 acc = some res) (hm : MixOK p acc.1) : MixOK p res.1 := by
  unfold cacheOp at h
  simp only [Option.bind_eq_bind, Option.bind_eq_some, Option.pure_def, Option.some.injEq] at h
  obtain ⟨_, _, _, _, m, hf, rfl⟩ := h
  exact foldlM_pres _ (MixOK p) _ _ _ (fun s a s' hs => cacheLane_shape p _ _ _ _ s s' a hs) hm hf

theorem mathOp_shape (p : Params) (acc res : MixArray × MixRngState)
    (h : mathOp p acc = some res) (hm : MixOK p acc.1) : MixOK p res.1 := by
  unfold mathOp at h
  simp only [Option.bind_eq_bind, Option.bind_eq_some, Option.pure_def, Option.some.injEq] at h
  obtain ⟨_, _, m, hf, rfl⟩ := h
  exact foldlM_pres _ (MixOK p) _ _ _ (fun s a s' hs => mathLane_shape p _ _ _ _ _ s s' a hs) hm hf

theorem roundStep_shape (p : Params) (l1 : List Nat) (acc res : MixArray × MixRngState)
    (i : Nat) (h : roundStep p l1 acc i = some res) (hm : MixOK p acc.1) : MixOK p res.1 := by
  unfold roundStep at h
  simp only [Option.bind_eq_bind, Option.bind_eq_some] at h
  obtain ⟨a1, h1, h2⟩ := h
  have hm1 : MixOK p a1.1 := by
    split at h1
    · exact cacheOp_shape p l1 acc a1 h1 hm
    · simp only [Option.some.injEq] at h1; exact h1 ▸ hm
  split at h2
  · exact mathOp_shape p a1 res h2 hm1
  · simp only [Option.some.injEq] at h2; exact h2 ▸ hm1

theorem dagWord_shape (p : Params) (item dsts sels : List Nat) (offset l : Nat)
    (mix m : MixArray) (i : Nat) (h : dagWord p item dsts sels offset l mix i = some m)
    (hm : MixOK p mix) : MixOK p m := by
  unfold dagWord at h
  simp only [Option.bind_eq_bind, Option.bind_eq_some] at h
  obtain ⟨_, _, _, _, _, _, _, _, h⟩ := h
  exact setReg_shape p _ _ _ _ _ h hm

theorem dagLane_shape (p : Params) (r : Nat) (item dsts sels : List Nat) (n : Nat)
    (mix m : MixArray) (l : Nat) (h : dagLane p r item dsts sels n mix l = some m)
    (hm : MixOK p mix) : MixOK p m := by
  unfold dagLane at h
  exact foldlM_pres _ (MixOK p) _ _ _ (fun s a s' hs => dagWord_shape p _ _ _ _ _ s s' a hs) hm h

theorem round_shape (p : Params) (l1 : List Nat) (r : Nat) (mix : MixArray)
    (state : MixRngState) (lookup : Nat → List Nat) (res : MixArray × MixRngState)
    (h : round p l1 r mix state lookup = some res) (hm : MixOK p mix) : MixOK p res.1 := by
  unfold round at h
  simp only [Option.bind_eq_bind, Option.bind_eq_some, Option.pure_def, Option.some.injEq] at h
  obtain ⟨_, _, _, _, acc, ha, dag, _, m1, h1, rfl⟩ := h
  have hacc : MixOK p acc.1 :=
    foldlM_pres _ (fun a => MixOK p a.1) _ _ _
      (fun s a s' hs => roundStep_shape p l1 s s' a hs) hm ha
  exact foldlM_pres _ (MixOK p) _ _ _
    (fun s a s' hs => dagLane_shape p r _ _ _ _ s s' a hs) hacc h1

theorem rounds_shape (p : Params) (l1 : List Nat) (lookup : Nat → List Nat)
    (acc res : MixArray × MixRngState) (h : rounds p l1 lookup acc = some res)
    (hm : MixOK p acc.1) : MixOK p res.1 := by
  unfold rounds at h
  exact foldlM_pres _ (fun a => MixOK p a.1) _ _ _
    (fun s a s' hs => round_shape p l1 _ s.1 s.2 lookup s' hs) hm h

/-! ## Reduction to the digest words -/

theorem getReg_eq_regOf (p : Params) (mix : MixArray) (l r : Nat) (hm : MixOK p mix)
    (hl : l < p.numLanes) (hr : r < p.numRegs) : getReg mix l r = some (regOf mix l r) := by
  have hl' : l < mix.length := by rw [hm.1]; exact hl
  have hrow : mix[l].length = p.numRegs := hm.2 _ (List.getElem_mem hl')
  have hr' : r < mix[l].length := by rw [hrow]; exact hr
  unfold getReg regOf
  simp only [List.getD_eq_getElem?_getD, List.getElem?_eq_getElem hl', Option.getD_some,
    List.getElem?_eq_getElem hr']

theorem laneFold_succ (p : Params) (mix : MixArray) (l i : Nat) :
    laneFold p mix l (i + 1) = p.fnv1a (laneFold p mix l i) (regOf mix l i) := by
  simp [laneFold, List.range_succ]

theorem laneHashes_eq (p : Params) (mix : MixArray) (hm : MixOK p mix) :
    laneHashes p mix = some ((List.range p.numLanes).map (specLaneHash p mix)) := by
  unfold laneHashes
  obtain ⟨lh, e, hlen, hval⟩ := foldlM_range_inv
    (fun laneHash l => do
      let lh0 ← (if l < laneHash.length then some (laneHash.set l p.FNV_OFFSET_BASIS) else none)
      (List.range p.numRegs).foldlM (fun lh i => do
        let cur ← lh[l]?
        let v ← getReg mix l i
        pure (lh.set l (p.fnv1a cur v))) lh0)
    (fun k lh => lh.length = p.numLanes ∧ ∀ l, l < k → lh[l]? = some (specLaneHash p mix l))
    p.numLanes (List.replicate p.numLanes 0) ⟨by simp, fun l hl => absurd hl (Nat.not_lt_zero l)⟩
    (by
      intro k lh hk hinv
      have hk' : k < lh.length := by rw [hinv.1]; exact hk
      obtain ⟨lh', e', hlen', hcur, hold⟩ := foldlM_range_inv
        (fun lh i => do
          let cur ← lh[k]?
          let v ← getReg mix k i
          pure (lh.set k (p.fnv1a cur v)))
        (fun i lh => lh.length = p.numLanes ∧ lh[k]? = some (laneFold p mix k i) ∧
          ∀ l, l < k → lh[l]? = some (specLaneHash p mix l))
        p.numRegs (lh.set k p.FNV_OFFSET_BASIS)
        ⟨by simpa using hinv.1, by
          rw [List.getElem?_set_self (by simpa using hk')]; rfl,
          fun l hl => by
            rw [List.getElem?_set_ne (by omega)]; exact hinv.2 l hl⟩
        (by
          intro i s hi hs
          refine ⟨s.set k (p.fnv1a (laneFold p mix k i) (regOf mix k i)), ?_, ?_, ?_, ?_⟩
          · simp only [hs.2.1, getReg_eq_regOf p mix k i hm hk hi, Option.bind_eq_bind,
              Option.some_bind, Option.pure_def]
          · simpa using hs.1
          · rw [List.getElem?_set_self (by rw [hs.1]; exact hk), laneFold_succ]
          · intro l hl
            rw [List.getElem?_set_ne (by omega)]; exact hs.2.2 l hl)
      refine ⟨lh', ?_, hlen', ?_⟩
      · simp only [if_pos hk', Option.bind_eq_bind, Option.some_bind]
        exact e'
      · intro l hl
        rcases Nat.lt_succ_iff_lt_or_eq.mp hl with h | h
        · exact hold l h
        · rw [h, hcur]; rfl)
  rw [e]
  congr 1
  apply List.ext_getElem?
  intro l
  by_cases hl : l < p.numLanes
  · rw [hval l hl, List.getElem?_map, List.getElem?_range hl]; rfl
  · rw [List.getElem?_eq_none (by omega), List.getElem?_eq_none (by simp; omega)]

theorem wordFold_succ (p : Params) (H : Nat → Nat) (k j : Nat) :
    wordFold p H (k + 1) j =
      if k % 8 = j then p.fnv1a (wordFold p H k j) (H k) else wordFold p H k j := by
  unfold wordFold
  rw [List.range_succ, List.filter_append]
  by_cases h : k % 8 = j
  · simp [h]
  · simp [h]

theorem mixHashOf_eq (p : Params) (H : Nat → Nat) :
    mixHashOf p ((List.range p.numLanes).map H) =
      some ((List.range 8).map (wordFold p H p.numLanes)) := by
  unfold mixHashOf
  simp only [mixHash_init]
  obtain ⟨mh, e, hlen, hval⟩ := foldlM_range_inv
    (fun mixHash l => do
      let cur ← mixHash[l % 8]?
      let v ← ((List.range p.numLanes).map H)[l]?
      pure (mixHash.set (l % 8) (p.fnv1a cur v)))
    (fun k mh => mh.length = 8 ∧ ∀ j, j < 8 → mh[j]? = some (wordFold p H k j))
    p.numLanes (List.replicate 8 p.FNV_OFFSET_BASIS)
    ⟨by simp, fun j hj => by
      rw [List.getElem?_replicate, if_pos hj]; rfl⟩
    (by
      intro k mh hk hinv
      have hk8 : k % 8 < 8 := Nat.mod_lt _ (by decide)
      refine ⟨mh.set (k % 8) (p.fnv1a (wordFold p H k (k % 8)) (H k)), ?_, ?_, ?_⟩
      · simp only [hinv.2 _ hk8, List.getElem?_map, List.getElem?_range hk, Option.map_some',
          Option.bind_eq_bind, Option.some_bind, Option.pure_def]
      · simpa using hinv.1
      · intro j hj
        rw [wordFold_succ]
        by_cases h : k % 8 = j
        · rw [if_pos h, ← h, List.getElem?_set_self (by rw [hinv.1]; exact hk8)]
        · rw [if_neg h, List.getElem?_set_ne h]; exact hinv.2 j hj)
  rw [e]
  congr 1
  apply List.ext_getElem?
  intro j
  by_cases hj : j < 8
  · rw [hval j hj, List.getElem?_map, List.getElem?_range hj]; rfl
  · rw [List.getElem?_eq_none (by omega), List.getElem?_eq_none (by simp; omega)]

theorem specDigestWord_eq (p : Params) (mix : MixArray) (j : Nat) :
    wordFold p (specLaneHash p mix) p.numLanes j = specDigestWord p mix j := rfl

theorem reduce_eq (p : Params) (mix : MixArray) (hm : MixOK p mix) :
    (laneHashes p mix).bind (mixHashOf p) = some ((List.range 8).map (specDigestWord p mix)) := by
  rw [laneHashes_eq p mix hm, Option.some_bind, mixHashOf_eq]
  rfl

theorem hashMixWords_eq (p : Params) (l1 : List Nat) (height seed : Nat)
    (lookup : Nat → List Nat) :
    hashMixWords p l1 height seed lookup =
      (rounds p l1 lookup (initMix p seed, initMixRngState p (height / p.periodLength))).map
        (fun acc => (List.range 8).map (specDigestWord p acc.1)) := by
  have e : hashMixWords p l1 height seed lookup =
      (rounds p l1 lookup (initMix p seed, initMixRngState p (height / p.periodLength))).bind
        (fun acc => (laneHashes p acc.1).bind (mixHashOf p)) := rfl
  rw [e]
  cases h : rounds p l1 lookup (initMix p seed, initMixRngState p (height / p.periodLength)) with
  | none => rfl
  | some acc =>
    have hm := rounds_shape p l1 lookup _ acc h (initMix_ok p seed)
    rw [Option.some_bind, Option.map_some']
    exact reduce_eq p acc.1 hm

/-- C9: the words that `hashMix` hands to the serializer are the 8 words
`specDigestWord p mix 0, ..., specDigestWord p mix 7` of the mix state `mix` left by the
last round: word `j` is the `fnv1a` fold, from the offset basis, of the lane hashes of the
lanes `l` with `l % 8 = j` in increasing order, each lane hash being the `fnv1a` fold of
the lane's `numRegs` registers. -/
theorem hashMix_digest_words (p : Params) (l1 : List Nat) (height seed : Nat)
    (lookup : Nat → List Nat) :
    hashMixWords p l1 height seed lookup =
      (rounds p l1 lookup (initMix p seed, initMixRngState p (height / p.periodLength))).map
        (fun acc => (List.range 8).map (specDigestWord p acc.1)) ∧
    hashMix p l1 height seed lookup =
      (rounds p l1 lookup (initMix p seed, initMixRngState p (height / p.periodLength))).map
        (fun acc => p.uint32Array2ByteArray ((List.range 8).map (specDigestWord p acc.1))) ∧
    (hashMixWords p l1 height seed lookup).map List.length =
      (rounds p l1 lookup (initMix p seed, initMixRngState p (height / p.periodLength))).map
        (fun _ => 8) := by
  have h := hashMixWords_eq p l1 height seed lookup
  refine ⟨h, ?_, ?_⟩
  · unfold hashMix
    rw [h, Option.map_map]
    rfl
  · rw [h, Option.map_map]
    cases rounds p l1 lookup (initMix p seed, initMixRngState p (height / p.periodLength)) <;>
      simp

/-! ## Initial mix state -/

theorem fillRow_getElem? (n r : Nat) (k : Kiss99) (hr : r < n) :
    (fillRow n k)[r]? = some (Kiss99.output k r) := by
  induction n generalizing r k with
  | zero => exact absurd hr (Nat.not_lt_zero r)
  | succ n ih =>
    cases r with
    | zero => simp [fillRow, Kiss99.output, Kiss99.after]
    | succ r =>
      simp only [fillRow, List.getElem?_cons_succ]
      rw [ih r k.Next.2 (Nat.lt_of_succ_lt_succ hr)]
      rfl

/-- C10: for every seed, lane `l < numLanes` and register `r < numRegs`,
`initMix(seed)[l][r]` is output number `r + 1` of a fresh generator seeded with
`(z, w, jsr_l, jcong_l)`, where `z = fnv1a(FNV_OFFSET_BASIS, low32 seed)`,
`w = fnv1a(z, high32 seed)`, `jsr_l = fnv1a(w, l)` and `jcong_l = fnv1a(jsr_l, l)`: the
row of lane `l` is a function of `seed` and `l` alone. -/
theorem initMix_lane_stream (p : Params) (seed l r : Nat) (hlanes : p.numLanes ≤ 4294967296)
    (hl : l < p.numLanes) (hr : r < p.numRegs) :
    getReg (initMix p seed) l r =
      some (Kiss99.output
        (NewKiss99 (p.fnv1a p.FNV_OFFSET_BASIS (seed % 4294967296))
          (p.fnv1a (p.fnv1a p.FNV_OFFSET_BASIS (seed % 4294967296))
            (seed / 4294967296 % 4294967296))
          (p.fnv1a (p.fnv1a (p.fnv1a p.FNV_OFFSET_BASIS (seed % 4294967296))
            (seed / 4294967296 % 4294967296)) l)
          (p.fnv1a (p.fnv1a (p.fnv1a (p.fnv1a p.FNV_OFFSET_BASIS (seed % 4294967296))
            (seed / 4294967296 % 4294967296)) l) l)) r) := by
  have hw : wrap32 l = l := Nat.mod_eq_of_lt (by omega)
  have hhi : wrap32 (seed >>> 32) = seed / 4294967296 % 4294967296 := by
    unfold wrap32; rw [Nat.shiftRight_eq_div_pow]
  unfold getReg initMix
  simp only [List.getElem?_map, List.getElem?_range hl, Option.map_some', hw, hhi]
  exact fillRow_getElem? _ _ _ hr

theorem initMix_lane_stream_witness :
    (sampleParams.numLanes ≤ 4294967296 ∧ 1 < sampleParams.numLanes ∧
      1 < sampleParams.numRegs) ∧
    getReg (initMix sampleParams 7) 1 1 = some 2461125146 :=
  ⟨by decide,
    (initMix_lane_stream sampleParams 7 1 1 (by decide) (by decide) (by decide)).trans
      (by decide)⟩

/-! ## Kiss99: zero components and the multiply-with-carry range -/

theorem mwc_lt (a x : Nat) (ha : a ≤ 65535) (hx : x < 4294967296) :
    a * (x &&& 65535) + (x >>> 16) < 4294967296 := by
  have h1 : x &&& 65535 = x % 65536 := Nat.and_pow_two_sub_one_eq_mod x 16
  have h2 : x >>> 16 = x / 65536 := Nat.shiftRight_eq_div_pow x 16
  rw [h1, h2]
  have h3 : x % 65536 ≤ 65535 := by omega
  have h4 : x / 65536 ≤ 65535 := by omega
  have h5 : a * (x % 65536) ≤ 65535 * 65535 := Nat.mul_le_mul ha h3
  omega

theorem mwc_eq_zero (a x : Nat) (ha : 0 < a) :
    a * (x &&& 65535) + (x >>> 16) = 0 ↔ x = 0 := by
  have h1 : x &&& 65535 = x % 65536 := Nat.and_pow_two_sub_one_eq_mod x 16
  have h2 : x >>> 16 = x / 65536 := Nat.shiftRight_eq_div_pow x 16
  rw [h1, h2]
  constructor
  · intro h
    have h3 : a * (x % 65536) = 0 := by omega
    have h4 : x % 65536 = 0 := by
      rcases Nat.mul_eq_zero.mp h3 with h | h
      · omega
      · exact h
    omega
  · intro h
    subst h
    simp

theorem xorshl17_eq_zero (x : Nat) (hx : x < 4294967296) :
    x ^^^ wrap32 (x <<< 17) = 0 ↔ x = 0 := by
  constructor
  · intro h
    have h1 : x = wrap32 (x <<< 17) := Nat.xor_eq_zero.mp h
    rw [Nat.shiftLeft_eq] at h1
    unfold wrap32 at h1
    omega
  · intro h
    subst h
    simp [wrap32]

theorem xorshl5_eq_zero (x : Nat) (hx : x < 4294967296) :
    x ^^^ wrap32 (x <<< 5) = 0 ↔ x = 0 := by
  constructor
  · intro h
    have h1 : x = wrap32 (x <<< 5) := Nat.xor_eq_zero.mp h
    rw [Nat.shiftLeft_eq] at h1
    unfold wrap32 at h1
    omega
  · intro h
    subst h
    simp [wrap32]

theorem xorshr13_eq_zero (x : Nat) : x ^^^ (x >>> 13) = 0 ↔ x = 0 := by
  constructor
  · intro h
    have h1 : x = x >>> 13 := Nat.xor_eq_zero.mp h
    rw [Nat.shiftRight_eq_div_pow] at h1
    omega
  · intro h
    subst h
    simp

theorem wrap32_lt (x : Nat) : wrap32 x < 4294967296 := Nat.mod_lt _ (by decide)

theorem xor_lt_u32 (x y : Nat) (hx : x < 4294967296) (hy : y < 4294967296) :
    x ^^^ y < 4294967296 := Nat.xor_lt_two_pow (n := 32) hx hy

theorem shr_lt_u32 (x s : Nat) (hx : x < 4294967296) : x >>> s < 4294967296 := by
  rw [Nat.shiftRight_eq_div_pow]
  exact Nat.lt_of_le_of_lt (Nat.div_le_self _ _) hx

theorem Next_valid (k : Kiss99) (hk : k.Valid) : k.Next.2.Valid := by
  obtain ⟨_, _, hj, _⟩ := hk
  have h1 := xor_lt_u32 _ _ hj (wrap32_lt (k.jsr <<< 17))
  have h2 := xor_lt_u32 _ _ h1 (shr_lt_u32 _ 13 h1)
  exact ⟨wrap32_lt _, wrap32_lt _, xor_lt_u32 _ _ h2 (wrap32_lt _), wrap32_lt _⟩

theorem Next_z (k : Kiss99) (hz : k.z < 4294967296) :
    k.Next.2.z = 36969 * (k.z &&& 65535) + (k.z >>> 16) :=
  wrap32_of_lt _ (mwc_lt 36969 k.z (by decide) hz)

theorem Next_w (k : Kiss99) (hw : k.w < 4294967296) :
    k.Next.2.w = 18000 * (k.w &&& 65535) + (k.w >>> 16) :=
  wrap32_of_lt _ (mwc_lt 18000 k.w (by decide) hw)

theorem Next_zero_iff (k : Kiss99) (hk : k.Valid) :
    (k.Next.2.z = 0 ↔ k.z = 0) ∧ (k.Next.2.w = 0 ↔ k.w = 0) ∧
      (k.Next.2.jsr = 0 ↔ k.jsr = 0) := by
  obtain ⟨hz, hw, hj, _⟩ := hk
  refine ⟨?_, ?_, ?_⟩
  · rw [Next_z k hz]; exact mwc_eq_zero 36969 k.z (by decide)
  · rw [Next_w k hw]; exact mwc_eq_zero 18000 k.w (by decide)
  · have h1 := xor_lt_u32 _ _ hj (wrap32_lt (k.jsr <<< 17))
    have h2 := xor_lt_u32 _ _ h1 (shr_lt_u32 _ 13 h1)
    show (k.jsr ^^^ wrap32 (k.jsr <<< 17) ^^^ ((k.jsr ^^^ wrap32 (k.jsr <<< 17)) >>> 13)) ^^^
        wrap32 ((k.jsr ^^^ wrap32 (k.jsr <<< 17) ^^^
          ((k.jsr ^^^ wrap32 (k.jsr <<< 17)) >>> 13)) <<< 5) = 0 ↔ k.jsr = 0
    rw [xorshl5_eq_zero _ h2, xorshr13_eq_zero, xorshl17_eq_zero _ hj]

theorem after_valid (n : Nat) (k : Kiss99) (hk : k.Valid) : (Kiss99.after n k).Valid := by
  induction n generalizing k with
  | zero => exact hk
  | succ n ih => exact ih _ (Next_valid k hk)

theorem after_zero_iff (n : Nat) (k : Kiss99) (hk : k.Valid) :
    ((Kiss99.after n k).z = 0 ↔ k.z = 0) ∧ ((Kiss99.after n k).w = 0 ↔ k.w = 0) ∧
      ((Kiss99.after n k).jsr = 0 ↔ k.jsr = 0) := by
  induction n generalizing k with
  | zero => exact ⟨Iff.rfl, Iff.rfl, Iff.rfl⟩
  | succ n ih =>
    have h1 := ih k.Next.2 (Next_valid k hk)
    have h2 := Next_zero_iff k hk
    exact ⟨h1.1.trans h2.1, h1.2.1.trans h2.2.1, h1.2.2.trans h2.2.2⟩

/-- C19: for every generator state (four `uint32` words), each of `z`, `w` and `jsr` is
zero after `Next` exactly when it was zero before; hence after any number of draws a
component is zero exactly when it was zero in the seeded state. -/
theorem kiss99_zero_components (k : Kiss99) (hk : Kiss99.Valid k) :
    (((Kiss99.Next k).2.z = 0 ↔ k.z = 0) ∧ ((Kiss99.Next k).2.w = 0 ↔ k.w = 0) ∧
      ((Kiss99.Next k).2.jsr = 0 ↔ k.jsr = 0)) ∧
    ∀ n, ((Kiss99.after n k).z = 0 ↔ k.z = 0) ∧ ((Kiss99.after n k).w = 0 ↔ k.w = 0) ∧
      ((Kiss99.after n k).jsr = 0 ↔ k.jsr = 0) :=
  ⟨Next_zero_iff k hk, fun n => after_zero_iff n k hk⟩

theorem kiss99_zero_components_witness :
    Kiss99.Valid (NewKiss99 0 521288629 123456789 380116160) ∧
    (Kiss99.after 1000 (NewKiss99 0 521288629 123456789 380116160)).z = 0 ∧
    (Kiss99.after 1000 (NewKiss99 0 521288629 123456789 380116160)).jsr ≠ 0 :=
  ⟨⟨by decide, by decide, by decide, by decide⟩,
    (((kiss99_zero_components (NewKiss99 0 521288629 123456789 380116160)
      ⟨by decide, by decide, by decide, by decide⟩).2 1000).1).mpr rfl,
    fun h => absurd ((((kiss99_zero_components (NewKiss99 0 521288629 123456789 380116160)
      ⟨by decide, by decide, by decide, by decide⟩).2 1000).2.2).mp h) (by decide)⟩

/-- C20: for 32-bit `z` and `w` the multiply-with-carry expressions
`36969*(z & 65535) + (z >> 16)` and `18000*(w & 65535) + (w >> 16)`, computed over the
natural numbers, are below `2^32`, and they are the values that `Next` stores in `z` and
`w`. -/
theorem mwc_no_overflow (k : Kiss99) (hz : k.z < 4294967296) (hw : k.w < 4294967296) :
    36969 * (k.z &&& 65535) + (k.z >>> 16) < 4294967296 ∧
    18000 * (k.w &&& 65535) + (k.w >>> 16) < 4294967296 ∧
    (Kiss99.Next k).2.z = 36969 * (k.z &&& 65535) + (k.z >>> 16) ∧
    (Kiss99.Next k).2.w = 18000 * (k.w &&& 65535) + (k.w >>> 16) :=
  ⟨mwc_lt 36969 k.z (by decide) hz, mwc_lt 18000 k.w (by decide) hw, Next_z k hz, Next_w k hw⟩

theorem mwc_no_overflow_witness :
    (4294967295 < 4294967296) ∧
    (Kiss99.Next (NewKiss99 4294967295 4294967295 1 1)).2.z = 2422828950 ∧
    (Kiss99.Next (NewKiss99 4294967295 4294967295 1 1)).2.w = 1179695535 :=
  ⟨by decide,
    (mwc_no_overflow (NewKiss99 4294967295 4294967295 1 1) (by decide) (by decide)).2.2.1.trans
      (by decide),
    (mwc_no_overflow (NewKiss99 4294967295 4294967295 1 1) (by decide) (by decide)).2.2.2.trans
      (by decide)⟩

/-! ## The schedule against the reference construction -/

theorem exchange_length (xs : List Nat) (a b : Nat) : (exchange xs a b).length = xs.length := by
  simp [exchange]

theorem swapAt_eq_exchange (xs : List Nat) (a b : Nat) (ha : a < xs.length)
    (hb : b < xs.length) : swapAt xs a b = exchange xs a b := by
  apply List.ext_getElem?
  intro k
  by_cases hk : k < xs.length
  · unfold swapAt exchange
    rw [List.getElem?_map, List.getElem?_range hk]
    simp only [Option.map_some', List.getElem?_set, List.length_set,
      List.getD_eq_getElem?_getD, List.getElem?_eq_getElem ha, List.getElem?_eq_getElem hb,
      List.getElem?_eq_getElem hk, Option.getD_some]
    by_cases h1 : k = a
    · by_cases h2 : k = b
      · subst h1; subst h2; simp [hk]
      · subst h1; simp [hk, h2, Ne.symm h2]
    · by_cases h2 : k = b
      · subst h2; simp [hk, h1]
      · simp [h1, h2, Ne.symm h1, Ne.symm h2]
  · rw [List.getElem?_eq_none (by rw [swapAt_length]; omega),
      List.getElem?_eq_none (by rw [exchange_length]; omega)]

theorem after_add (j k : Nat) (g : Kiss99) :
    Kiss99.after k (Kiss99.after j g) = Kiss99.after (k + j) g := by
  induction j generalizing g with
  | zero => rfl
  | succ j ih =>
    show Kiss99.after k (Kiss99.after j g.Next.2) = Kiss99.after (k + j + 1) g
    rw [ih]
    rfl

theorem output_after (j k : Nat) (g : Kiss99) :
    Kiss99.output (Kiss99.after j g) k = Kiss99.output g (k + j) := by
  unfold Kiss99.output
  rw [after_add]

theorem shuffle_spec (n : Nat) (g : Kiss99) (src dst : List Nat) (hs : n ≤ src.length)
    (hd : n ≤ dst.length) :
    shuffle n (g, src, dst) =
      (Kiss99.after (2 * (n - 1)) g,
        (List.range (n - 1)).foldl
          (fun xs t => exchange xs (n - t - 1) (Kiss99.output g (2 * t + 1) % (n - t))) src,
        (List.range (n - 1)).foldl
          (fun xs t => exchange xs (n - t - 1) (Kiss99.output g (2 * t) % (n - t))) dst) := by
  induction n generalizing g src dst with
  | zero => rfl
  | succ n ih =>
    cases n with
    | zero => rfl
    | succ m =>
      have hms : ∀ x : Nat, x % (m + 2) < src.length := fun x => by
        have := Nat.mod_lt x (show 0 < m + 2 by omega); omega
      have hmd : ∀ x : Nat, x % (m + 2) < dst.length := fun x => by
        have := Nat.mod_lt x (show 0 < m + 2 by omega); omega
      unfold shuffle
      simp only [show 1 < m + 1 + 1 by omega, if_true]
      rw [ih g.Next.2.Next.2 _ _ (by rw [swapAt_length]; omega) (by rw [swapAt_length]; omega)]
      rw [swapAt_eq_exchange _ _ _ (by omega) (hms _),
        swapAt_eq_exchange _ _ _ (by omega) (hmd _)]
      have hg : g.Next.2.Next.2 = Kiss99.after 2 g := rfl
      rw [hg, after_add]
      simp only [Nat.add_sub_cancel, output_after]
      rw [List.range_succ_eq_map m, List.foldl_cons, List.foldl_cons, List.foldl_map,
        List.foldl_map]
      have e1 : ∀ t, m + 1 + 1 - Nat.succ t - 1 = m + 1 - t - 1 := fun t => by omega
      have e2 : ∀ t, m + 1 + 1 - Nat.succ t = m + 1 - t := fun t => by omega
      have e3 : ∀ t, 2 * Nat.succ t + 1 = 2 * t + 1 + 2 := fun t => by omega
      have e4 : ∀ t, 2 * Nat.succ t = 2 * t + 2 := fun t => by omega
      simp only [e1, e2, e3, e4, Nat.sub_zero, Nat.add_sub_cancel, Nat.mul_zero, Nat.zero_add]
      rfl

theorem scheduleRng_eq (p : Params) (seed : Nat) :
    scheduleRng p seed = specScheduleRng p seed := by
  have hhi : wrap32 (seed >>> 32) = seed / 4294967296 % 4294967296 := by
    unfold wrap32; rw [Nat.shiftRight_eq_div_pow]
  unfold scheduleRng specScheduleRng NewKiss99
  simp only [hhi]
  rfl

/-- C12: `initMixRngState seed` is the reference construction `specSchedule`: one
generator seeded from the two halves of `seed`, both arrays starting as the identity,
and for `i = numRegs` down to `2` an exchange of position `i - 1` with `draw % i`, the
destination draw first and the source draw second from the one stream; both cursors are
`0` and the generator has made `2 * (numRegs - 1)` draws. -/
theorem initMixRngState_reference (p : Params) (seed : Nat) :
    initMixRngState p seed = specSchedule p seed := by
  have h := shuffle_spec p.numRegs (specScheduleRng p seed) (List.range p.numRegs)
    (List.range p.numRegs) (by simp) (by simp)
  unfold initMixRngState
  simp only [scheduleRng_eq, h]
  rfl

/-! ## Consecutive cursor calls -/

theorem dstCalls_eq (p : Params) (hn : 0 < p.numRegs) (n : Nat) (s : MixRngState)
    (hd : s.DstSeq.length = p.numRegs) (hc : s.DstCounter + n < 4294967296) :
    MixRngState.dstCalls p n s =
      some ((List.range n).map (fun j => s.DstSeq.getD ((s.DstCounter + 1 + j) % p.numRegs) 0),
        { s with DstCounter := s.DstCounter + n }) := by
  induction n generalizing s with
  | zero => rfl
  | succ n ih =>
    obtain ⟨v, hv, hv'⟩ := nextDst_eq p s hn hd
    rw [wrap32_of_lt _ (by omega)] at hv hv'
    unfold MixRngState.dstCalls
    rw [hv']
    simp only
    rw [ih ⟨s.SrcCounter, s.DstCounter + 1, s.SrcSeq, s.DstSeq, s.Rng⟩ hd (by simp only; omega)]
    simp only [Option.some.injEq, Prod.mk.injEq, MixRngState.mk.injEq, true_and, and_true]
    refine ⟨?_, by omega⟩
    rw [List.range_succ_eq_map, List.map_cons, List.map_map]
    congr 1
    · simp [List.getD_eq_getElem?_getD, hv]
    · apply List.map_congr_left
      intro j _
      simp only [Function.comp]
      congr 2
      omega

theorem map_rotate_index (xs : List Nat) (k : Nat) :
    (List.range xs.length).map (fun j => xs.getD ((k + j) % xs.length) 0) = xs.rotate k := by
  apply List.ext_getElem?
  intro j
  by_cases hj : j < xs.length
  · rw [List.getElem?_map, List.getElem?_range hj, List.getElem?_rotate hj]
    have hlt : (j + k) % xs.length < xs.length := Nat.mod_lt _ (by omega)
    simp only [Option.map_some', List.getD_eq_getElem?_getD, Nat.add_comm k j,
      List.getElem?_eq_getElem hlt, Option.getD_some]
  · rw [List.getElem?_eq_none (by simp; omega), List.getElem?_eq_none (by simp; omega)]

theorem srcCalls_eq (p : Params) (hn : 0 < p.numRegs) (n : Nat) (s : MixRngState)
    (hd : s.SrcSeq.length = p.numRegs) (hc : s.SrcCounter + n < 4294967296) :
    MixRngState.srcCalls p n s =
      some ((List.range n).map (fun j => s.SrcSeq.getD ((s.SrcCounter + 1 + j) % p.numRegs) 0),
        { s with SrcCounter := s.SrcCounter + n }) := by
  induction n generalizing s with
  | zero => rfl
  | succ n ih =>
    obtain ⟨v, hv, hv'⟩ := nextSrc_eq p s hn hd
    rw [wrap32_of_lt _ (by omega)] at hv hv'
    unfold MixRngState.srcCalls
    rw [hv']
    simp only
    rw [ih ⟨s.SrcCounter + 1, s.DstCounter, s.SrcSeq, s.DstSeq, s.Rng⟩ hd (by simp only; omega)]
    simp only [Option.some.injEq, Prod.mk.injEq, MixRngState.mk.injEq, true_and, and_true]
    refine ⟨?_, by omega⟩
    rw [List.range_succ_eq_map, List.map_cons, List.map_map]
    congr 1
    · simp [List.getD_eq_getElem?_getD, hv]
    · apply List.map_congr_left
      intro j _
      simp only [Function.comp]
      congr 2
      omega

theorem perm_range_facts (n : Nat) (vs : List Nat) (h : vs.Perm (List.range n)) :
    vs.Nodup ∧ ∀ v, v ∈ vs → v < n :=
  ⟨h.nodup_iff.mpr (List.nodup_range n), fun _ hv => List.mem_range.mp (h.mem_iff.mp hv)⟩

theorem dstCalls_perm (p : Params) (s : MixRngState)
    (hd : s.DstSeq.Perm (List.range p.numRegs)) (hc : s.DstCounter + p.numRegs < 4294967296) :
    ∃ vs s', MixRngState.dstCalls p p.numRegs s = some (vs, s') ∧
      vs.Perm (List.range p.numRegs) := by
  have hlen : s.DstSeq.length = p.numRegs := by simpa using hd.length_eq
  rcases Nat.eq_zero_or_pos p.numRegs with h0 | hn
  · rw [h0]
    exact ⟨[], s, rfl, by simp⟩
  · refine ⟨_, _, dstCalls_eq p hn p.numRegs s hlen hc, ?_⟩
    have h := map_rotate_index s.DstSeq (s.DstCounter + 1)
    rw [hlen] at h
    rw [h]
    exact (List.rotate_perm _ _).trans hd

theorem srcCalls_perm (p : Params) (s : MixRngState)
    (hd : s.SrcSeq.Perm (List.range p.numRegs)) (hc : s.SrcCounter + p.numRegs < 4294967296) :
    ∃ vs s', MixRngState.srcCalls p p.numRegs s = some (vs, s') ∧
      vs.Perm (List.range p.numRegs) := by
  have hlen : s.SrcSeq.length = p.numRegs := by simpa using hd.length_eq
  rcases Nat.eq_zero_or_pos p.numRegs with h0 | hn
  · rw [h0]
    exact ⟨[], s, rfl, by simp⟩
  · refine ⟨_, _, srcCalls_eq p hn p.numRegs s hlen hc, ?_⟩
    have h := map_rotate_index s.SrcSeq (s.SrcCounter + 1)
    rw [hlen] at h
    rw [h]
    exact (List.rotate_perm _ _).trans hd

/-- C18: on a schedule whose `DstSeq` is a permutation of `0, ..., numRegs-1` and whose
`DstCounter` stays below `2^32` during the calls, `numRegs` consecutive calls of
`nextDst`, started in any cursor position, return every register exactly once: the
returned values are a permutation of `0, ..., numRegs-1`, pairwise distinct and below
`numRegs`. The same holds for `nextSrc` and `SrcSeq`. -/
theorem consecutive_calls_distinct (p : Params) (s : MixRngState)
    (hd : s.DstSeq.Perm (List.range p.numRegs)) (hs : s.SrcSeq.Perm (List.range p.numRegs))
    (hcd : s.DstCounter + p.numRegs < 4294967296)
    (hcs : s.SrcCounter + p.numRegs < 4294967296) :
    (∃ vs s', MixRngState.dstCalls p p.numRegs s = some (vs, s') ∧
      vs.Perm (List.range p.numRegs) ∧ vs.Nodup ∧ ∀ v, v ∈ vs → v < p.numRegs) ∧
    (∃ vs s', MixRngState.srcCalls p p.numRegs s = some (vs, s') ∧
      vs.Perm (List.range p.numRegs) ∧ vs.Nodup ∧ ∀ v, v ∈ vs → v < p.numRegs) := by
  obtain ⟨vd, sd, h1, h2⟩ := dstCalls_perm p s hd hcd
  obtain ⟨vs, ss, h3, h4⟩ := srcCalls_perm p s hs hcs
  exact ⟨⟨vd, sd, h1, h2, perm_range_facts _ _ h2⟩, ⟨vs, ss, h3, h4, perm_range_facts _ _ h4⟩⟩

theorem consecutive_calls_distinct_witness :
    ((initMixRngState sampleParams 0).DstCounter + sampleParams.numRegs < 4294967296 ∧
      (initMixRngState sampleParams 0).SrcCounter + sampleParams.numRegs < 4294967296) ∧
    ∃ vs s', MixRngState.dstCalls sampleParams sampleParams.numRegs
        (initMixRngState sampleParams 0) = some (vs, s') ∧
      vs.Perm (List.range sampleParams.numRegs) ∧ vs.Nodup ∧
      ∀ v, v ∈ vs → v < sampleParams.numRegs :=
  ⟨by decide,
    (consecutive_calls_distinct sampleParams (initMixRngState sampleParams 0)
      (initMixRngState_dst_perm sampleParams 0) (initMixRngState_src_perm sampleParams 0)
      (by decide) (by decide)).1⟩

/-! ## Item segments of the lanes -/

theorem dagLane_reads (p : Params) (r : Nat) (item dsts sels : List Nat) (n : Nat)
    (mix : MixArray) (l : Nat) :
    dagLane p r item dsts sels n mix l =
      (List.range n).foldlM (fun m i => do
        let word ← item[itemIndexOf p r n l i]?
        let dst ← dsts[i]?
        let sel ← sels[i]?
        let d ← getReg m l dst
        setReg m l dst (p.randomMerge d word sel)) mix := rfl

theorem bump_add (m n c : Nat) : bump n (bump m c) = bump (m + n) c := by
  induction m generalizing c with
  | zero => rw [Nat.zero_add]; rfl
  | succ m ih =>
    show bump n (bump m (wrap32 (c + 1))) = bump (m + 1 + n) c
    rw [ih, show m + 1 + n = (m + n) + 1 by omega]
    rfl

theorem bump_succ (n c : Nat) : wrap32 (bump n c + 1) = bump (n + 1) c := by
  have h := bump_add n 1 c
  exact h

theorem bump_eq (n c : Nat) (hc : c < 4294967296) : bump n c = (c + n) % 4294967296 := by
  induction n generalizing c with
  | zero => exact (Nat.mod_eq_of_lt hc).symm
  | succ n ih =>
    show bump n (wrap32 (c + 1)) = _
    have h := ih (wrap32 (c + 1)) (Nat.mod_lt _ (by decide))
    rw [h]
    unfold wrap32
    omega

theorem after_succ (n : Nat) (g : Kiss99) :
    (Kiss99.after n g).Next.2 = Kiss99.after (n + 1) g := by
  have h := after_add n 1 g
  rw [Nat.add_comm 1 n] at h
  exact h

theorem advanced_zero (s : MixRngState) : s.advanced 0 0 0 = s := rfl

theorem nextSrc_advanced (p : Params) (s : MixRngState) (a b c : Nat)
    (r : Nat × MixRngState) (h : (s.advanced a b c).nextSrc p = some r) :
    r.2 = s.advanced (a + 1) b c := by
  simp only [MixRngState.nextSrc] at h
  split at h
  · simp only [Option.some.injEq] at h
    rw [← h]
    simp only [MixRngState.advanced, bump_succ]
  · exact absurd h (by simp)

theorem nextDst_advanced (p : Params) (s : MixRngState) (a b c : Nat)
    (r : Nat × MixRngState) (h : (s.advanced a b c).nextDst p = some r) :
    r.2 = s.advanced a (b + 1) c := by
  simp only [MixRngState.nextDst] at h
  split at h
  · simp only [Option.some.injEq] at h
    rw [← h]
    simp only [MixRngState.advanced, bump_succ]
  · exact absurd h (by simp)

theorem draw_advanced (s : MixRngState) (a b c : Nat) :
    ({ s.advanced a b c with Rng := (s.advanced a b c).Rng.Next.2 } : MixRngState) =
      s.advanced a b (c + 1) := by
  simp only [MixRngState.advanced, after_succ]

theorem cacheOp_sched (p : Params) (l1 : List Nat) (acc res : MixArray × MixRngState)
    (s : MixRngState) (a b c : Nat) (hacc : acc.2 = s.advanced a b c)
    (h : cacheOp p l1 acc = some res) : res.2 = s.advanced (a + 1) (b + 1) (c + 1) := by
  unfold cacheOp at h
  simp only [Option.bind_eq_bind, Option.bind_eq_some, Option.pure_def, Option.some.injEq] at h
  obtain ⟨src, hsrc, dst, hdst, m, _, rfl⟩ := h
  rw [hacc] at hsrc
  have h1 := nextSrc_advanced p s a b c src hsrc
  rw [h1] at hdst
  have h2 := nextDst_advanced p s (a + 1) b c dst hdst
  simp only [h2]
  exact draw_advanced s _ _ _

theorem mathOp_sched (p : Params) (acc res : MixArray × MixRngState)
    (s : MixRngState) (a b c : Nat) (hacc : acc.2 = s.advanced a b c)
    (h : mathOp p acc = some res) : res.2 = s.advanced a (b + 1) (c + 3) := by
  unfold mathOp at h
  simp only [Option.bind_eq_bind, Option.bind_eq_some, Option.pure_def, Option.some.injEq] at h
  obtain ⟨dst, hdst, m, _, rfl⟩ := h
  have e : ({ acc.2 with Rng := acc.2.Rng.Next.2.Next.2 } : MixRngState) =
      s.advanced a b (c + 2) := by
    rw [hacc]
    simp only [MixRngState.advanced, after_succ]
  rw [e] at hdst
  have h2 := nextDst_advanced p s a b (c + 2) dst hdst
  simp only [h2]
  exact draw_advanced s _ _ _

theorem foldlM_range_pres {σ : Type} (f : σ → Nat → Option σ) (Inv : Nat → σ → Prop)
    (n : Nat) (s s' : σ) (h0 : Inv 0 s)
    (hstep : ∀ k t t', k < n → Inv k t → f t k = some t' → Inv (k + 1) t')
    (h : (List.range n).foldlM f s = some s') : Inv n s' := by
  induction n generalizing s' with
  | zero =>
    simp only [List.range_zero, List.foldlM_nil, Option.pure_def, Option.some.injEq] at h
    exact h ▸ h0
  | succ n ih =>
    rw [List.range_succ, List.foldlM_append] at h
    simp only [Option.bind_eq_bind, Option.bind_eq_some, List.foldlM_cons, List.foldlM_nil,
      Option.pure_def, Option.some.injEq] at h
    obtain ⟨s1, h1, s2, h2, rfl⟩ := h
    exact hstep n s1 s2 (Nat.lt_succ_self n)
      (ih s1 (fun k t t' hk => hstep k t t' (Nat.lt_succ_of_lt hk)) h1) h2

theorem roundStep_sched (p : Params) (l1 : List Nat) (acc res : MixArray × MixRngState)
    (s : MixRngState) (i : Nat)
    (hacc : acc.2 = s.advanced (min i p.numCacheAccesses)
      (min i p.numCacheAccesses + min i p.numMathOperations)
      (min i p.numCacheAccesses + 3 * min i p.numMathOperations))
    (h : roundStep p l1 acc i = some res) :
    res.2 = s.advanced (min (i + 1) p.numCacheAccesses)
      (min (i + 1) p.numCacheAccesses + min (i + 1) p.numMathOperations)
      (min (i + 1) p.numCacheAccesses + 3 * min (i + 1) p.numMathOperations) := by
  unfold roundStep at h
  simp only [Option.bind_eq_bind, Option.bind_eq_some] at h
  obtain ⟨a1, h1, h2⟩ := h
  by_cases hc : i < p.numCacheAccesses
  · rw [if_pos hc] at h1
    have e1 := cacheOp_sched p l1 acc a1 s _ _ _ hacc h1
    by_cases hm : i < p.numMathOperations
    · rw [if_pos hm] at h2
      rw [mathOp_sched p a1 res s _ _ _ e1 h2]
      congr 1 <;> omega
    · rw [if_neg hm] at h2
      simp only [Option.some.injEq] at h2
      rw [← h2, e1]
      congr 1 <;> omega
  · rw [if_neg hc] at h1
    simp only [Option.some.injEq] at h1
    subst h1
    by_cases hm : i < p.numMathOperations
    · rw [if_pos hm] at h2
      rw [mathOp_sched p acc res s _ _ _ hacc h2]
      congr 1 <;> omega
    · rw [if_neg hm] at h2
      simp only [Option.some.injEq] at h2
      rw [← h2, hacc]
      congr 1 <;> omega

theorem ops_sched (p : Params) (l1 : List Nat) (mix : MixArray) (s : MixRngState)
    (res : MixArray × MixRngState)
    (h : (List.range (max p.numCacheAccesses p.numMathOperations)).foldlM (roundStep p l1)
      (mix, s) = some res) :
    res.2 = s.advanced p.numCacheAccesses (p.numCacheAccesses + p.numMathOperations)
      (p.numCacheAccesses + 3 * p.numMathOperations) := by
  have key := foldlM_range_pres (roundStep p l1)
    (fun i (acc : MixArray × MixRngState) =>
      acc.2 = s.advanced (min i p.numCacheAccesses)
        (min i p.numCacheAccesses + min i p.numMathOperations)
        (min i p.numCacheAccesses + 3 * min i p.numMathOperations))
    (max p.numCacheAccesses p.numMathOperations) (mix, s) res
    (by simp only [Nat.zero_min, Nat.mul_zero, Nat.add_zero]; rfl)
    (fun k t t' _ ht hstep => roundStep_sched p l1 t t' s k ht hstep) h
  rw [key]
  congr 1 <;> omega

theorem dagStep_sched (p : Params) (acc res : (List Nat × List Nat) × MixRngState)
    (s : MixRngState) (a b c i : Nat) (hacc : acc.2 = s.advanced a (b + (i - 1)) (c + i))
    (h : dagStep p acc i = some res) :
    res.2 = s.advanced a (b + (i + 1 - 1)) (c + (i + 1)) := by
  unfold dagStep at h
  simp only [Option.bind_eq_bind, Option.bind_eq_some] at h
  obtain ⟨d, hd, h2⟩ := h
  split at h2
  · simp only [Option.some.injEq] at h2
    rw [← h2]
    by_cases hi : i = 0
    · rw [if_pos hi] at hd
      simp only [Option.some.injEq] at hd
      subst hi
      rw [← hd]
      simp only [hacc]
      exact draw_advanced s _ _ _
    · rw [if_neg hi, hacc] at hd
      have h3 := nextDst_advanced p s _ _ _ d hd
      simp only [h3]
      rw [draw_advanced]
      congr 1
      omega
  · exact absurd h2 (by simp)

theorem dag_sched (p : Params) (n : Nat) (ds ss : List Nat) (s0 s : MixRngState) (a b c : Nat)
    (res : (List Nat × List Nat) × MixRngState) (hs0 : s0 = s.advanced a b c)
    (h : (List.range n).foldlM (dagStep p) ((ds, ss), s0) = some res) :
    res.2 = s.advanced a (b + (n - 1)) (c + n) :=
  foldlM_range_pres (dagStep p)
    (fun i (acc : (List Nat × List Nat) × MixRngState) =>
      acc.2 = s.advanced a (b + (i - 1)) (c + i))
    n ((ds, ss), s0) res hs0
    (fun k t t' _ ht hstep => dagStep_sched p t t' s a b c k ht hstep) h

/-- The schedule that `round` leaves behind, whenever it returns: a function of the
schedule it was given and of the number of words per lane alone. -/
theorem round_sched (p : Params) (l1 : List Nat) (r : Nat) (mix : MixArray)
    (state : MixRngState) (lookup : Nat → List Nat) (res : MixArray × MixRngState) (m0 : Nat)
    (hm0 : getReg mix (r % p.numLanes) 0 = some m0)
    (h : round p l1 r mix state lookup = some res) :
    res.2 = state.advanced p.numCacheAccesses
      (p.numCacheAccesses + p.numMathOperations +
        ((lookup (m0 % (p.l1CacheNumItems / 2))).length / p.numLanes - 1))
      (p.numCacheAccesses + 3 * p.numMathOperations +
        (lookup (m0 % (p.l1CacheNumItems / 2))).length / p.numLanes) := by
  unfold round at h
  simp only [hm0, Option.bind_eq_bind, Option.some_bind, Option.bind_eq_some, Option.pure_def,
    Option.some.injEq] at h
  obtain ⟨idx, hidx, acc, hacc, dag, hdag, m1, _, rfl⟩ := h
  have hi : idx = m0 % (p.l1CacheNumItems / 2) := by
    split at hidx
    · exact absurd hidx (by simp)
    · simp only [Option.some.injEq] at hidx; exact hidx.symm
  subst hi
  exact dag_sched p _ _ _ acc.2 state _ _ _ dag (ops_sched p l1 mix state acc hacc) hdag

theorem round_some_reg0 (p : Params) (l1 : List Nat) (r : Nat) (mix : MixArray)
    (state : MixRngState) (lookup : Nat → List Nat) (res : MixArray × MixRngState)
    (h : round p l1 r mix state lookup = some res) :
    ∃ m0, getReg mix (r % p.numLanes) 0 = some m0 := by
  unfold round at h
  simp only [Option.bind_eq_bind, Option.bind_eq_some] at h
  obtain ⟨m0, hm0, _⟩ := h
  exact ⟨m0, hm0⟩

theorem foldlM_rel {σ α : Type} (f f' : σ → α → Option σ) (R : σ → σ → Prop) (xs : List α)
    (s s' t t' : σ) (h0 : R s s')
    (hstep : ∀ a u u' v v', R u u' → f u a = some v → f' u' a = some v' → R v v')
    (h : xs.foldlM f s = some t) (h' : xs.foldlM f' s' = some t') : R t t' := by
  induction xs generalizing s s' with
  | nil =>
    simp only [List.foldlM_nil, Option.pure_def, Option.some.injEq] at h h'
    exact h ▸ h' ▸ h0
  | cons a xs ih =>
    rw [List.foldlM_cons] at h h'
    simp only [Option.bind_eq_bind, Option.bind_eq_some] at h h'
    obtain ⟨u, hu, hu2⟩ := h
    obtain ⟨u', hu', hu2'⟩ := h'
    exact ih u u' (hstep a s s' u u' h0 hu hu') hu2 hu2'

/-- C15: whenever `round` returns on a schedule with `uint32` cursors, with
`wordsPerLane = len(item) / numLanes` for the item it fetched, the schedule it leaves has
`SrcCounter` increased by `numCacheAccesses`, `DstCounter` increased by
`numCacheAccesses + numMathOperations + (wordsPerLane - 1)` (truncated subtraction, so
`max(wordsPerLane - 1, 0)`), both modulo `2^32`, the generator advanced by
`numCacheAccesses + 3 * numMathOperations + wordsPerLane` draws, and `SrcSeq` and `DstSeq`
unchanged. -/
theorem round_schedule_effect (p : Params) (l1 : List Nat) (r : Nat) (mix : MixArray)
    (state : MixRngState) (lookup : Nat → List Nat) (res : MixArray × MixRngState) (m0 : Nat)
    (hs : state.SrcCounter < 4294967296) (hd : state.DstCounter < 4294967296)
    (hm0 : getReg mix (r % p.numLanes) 0 = some m0)
    (h : round p l1 r mix state lookup = some res) :
    res.2 =
      { SrcCounter := (state.SrcCounter + p.numCacheAccesses) % 4294967296
        DstCounter := (state.DstCounter + (p.numCacheAccesses + p.numMathOperations +
          ((lookup (m0 % (p.l1CacheNumItems / 2))).length / p.numLanes - 1))) % 4294967296
        SrcSeq := state.SrcSeq
        DstSeq := state.DstSeq
        Rng := Kiss99.after (p.numCacheAccesses + 3 * p.numMathOperations +
          (lookup (m0 % (p.l1CacheNumItems / 2))).length / p.numLanes) state.Rng } := by
  rw [round_sched p l1 r mix state lookup res m0 hm0 h]
  simp only [MixRngState.advanced, bump_eq _ _ hs, bump_eq _ _ hd]

theorem round_schedule_effect_witness :
    ((initMixRngState sampleParams 0).SrcCounter < 4294967296 ∧
      (initMixRngState sampleParams 0).DstCounter < 4294967296 ∧
      getReg (initMix sampleParams 7) (0 % sampleParams.numLanes) 0 = some 2819534558) ∧
    ∃ res, round sampleParams (List.replicate 4096 7) 0 (initMix sampleParams 7)
        (initMixRngState sampleParams 0) (fun _ => List.replicate 64 1) = some res ∧
      res.2.SrcCounter = 11 ∧ res.2.DstCounter = 32 ∧
      res.2.Rng = Kiss99.after 69 (initMixRngState sampleParams 0).Rng := by
  obtain ⟨res, hres, _⟩ := round_ok sampleParams (List.replicate 4096 7) 0
    (initMix sampleParams 7) (initMixRngState sampleParams 0) (fun _ => List.replicate 64 1)
    sampleParams_wf (List.length_replicate 4096 7).ge (initMix_ok sampleParams 7)
    (initMixRngState_ok sampleParams 0)
  have h := round_schedule_effect sampleParams (List.replicate 4096 7) 0
    (initMix sampleParams 7) (initMixRngState sampleParams 0) (fun _ => List.replicate 64 1)
    res 2819534558 (by decide) (by decide) (by decide) hres
  refine ⟨⟨by decide, by decide, by decide⟩, res, hres, ?_, ?_, ?_⟩
  · rw [h]; rfl
  · rw [h]; rfl
  · rw [h]; rfl

/-! ## The item index of a returning round -/

theorem round_some_index (p : Params) (l1 : List Nat) (r : Nat) (mix : MixArray)
    (state : MixRngState) (lookup : Nat → List Nat) (res : MixArray × MixRngState)
    (h : round p l1 r mix state lookup = some res) : ∃ idx, roundIndex p r mix = some idx := by
  unfold round at h
  simp only [Option.bind_eq_bind, Option.bind_eq_some] at h
  obtain ⟨m0, hm0, idx, hidx, _⟩ := h
  refine ⟨idx, ?_⟩
  unfold roundIndex
  rw [hm0]
  exact hidx

/-! ## Lanes do not interfere -/

theorem getReg_congr (mix mix' : MixArray) (k r : Nat) (h : mix[k]? = mix'[k]?) :
    getReg mix k r = getReg mix' k r := by
  unfold getReg
  rw [h]

theorem setReg_getElem? (mix m1 : MixArray) (k r v l : Nat) (h : setReg mix k r v = some m1) :
    m1[l]? = if l = k then (mix[k]?).map (fun row => row.set r v) else mix[l]? := by
  unfold setReg at h
  split at h
  · rename_i row hrow
    split at h
    · simp only [Option.some.injEq] at h
      subst h
      by_cases hlk : l = k
      · subst hlk
        have hlt : l < mix.length := (List.getElem?_eq_some_iff.mp hrow).1
        rw [if_pos rfl, List.getElem?_set_self hlt, hrow]
        rfl
      · rw [if_neg hlk, List.getElem?_set_ne (Ne.symm hlk)]
    · exact absurd h (by simp)
  · exact absurd h (by simp)

theorem setReg_frame (mix m1 : MixArray) (k r v l : Nat) (h : setReg mix k r v = some m1)
    (hlk : l ≠ k) : m1[l]? = mix[l]? := by
  rw [setReg_getElem? mix m1 k r v l h, if_neg hlk]

theorem setReg_local (mix mix' m1 m1' : MixArray) (k r v : Nat)
    (h : setReg mix k r v = some m1) (h' : setReg mix' k r v = some m1')
    (hk : mix[k]? = mix'[k]?) : m1[k]? = m1'[k]? := by
  rw [setReg_getElem? mix m1 k r v k h, setReg_getElem? mix' m1' k r v k h', if_pos rfl,
    if_pos rfl, hk]

theorem cacheLane_frame (p : Params) (l1 : List Nat) (src dst sel : Nat) (mix m1 : MixArray)
    (k l : Nat) (h : cacheLane p l1 src dst sel mix k = some m1) (hlk : l ≠ k) :
    m1[l]? = mix[l]? := by
  unfold cacheLane at h
  simp only [Option.bind_eq_bind, Option.bind_eq_some] at h
  obtain ⟨_, _, _, _, _, _, h⟩ := h
  exact setReg_frame _ _ _ _ _ _ h hlk

theorem cacheLane_local (p : Params) (l1 : List Nat) (src dst sel : Nat)
    (mix mix' m1 m1' : MixArray) (k : Nat)
    (h : cacheLane p l1 src dst sel mix k = some m1)
    (h' : cacheLane p l1 src dst sel mix' k = some m1') (hk : mix[k]? = mix'[k]?) :
    m1[k]? = m1'[k]? := by
  unfold cacheLane at h h'
  rw [← getReg_congr mix mix' k src hk, ← getReg_congr mix mix' k dst hk] at h'
  simp only [Option.bind_eq_bind, Option.bind_eq_some] at h h'
  obtain ⟨a, ha, d, hd, c, hc, hset⟩ := h
  obtain ⟨a', ha', d', hd', c', hc', hset'⟩ := h'
  rw [ha] at ha'
  rw [hd] at hd'
  simp only [Option.some.injEq] at ha' hd'
  subst ha' hd'
  rw [hc] at hc'
  simp only [Option.some.injEq] at hc'
  subst hc'
  exact setReg_local _ _ _ _ _ _ _ hset hset' hk

theorem mathLane_frame (p : Params) (src1 src2 sel1 dst sel2 : Nat) (mix m1 : MixArray)
    (k l : Nat) (h : mathLane p src1 src2 sel1 dst sel2 mix k = some m1) (hlk : l ≠ k) :
    m1[l]? = mix[l]? := by
  unfold mathLane at h
  simp only [Option.bind_eq_bind, Option.bind_eq_some] at h
  obtain ⟨_, _, _, _, _, _, h⟩ := h
  exact setReg_frame _ _ _ _ _ _ h hlk

theorem mathLane_local (p : Params) (src1 src2 sel1 dst sel2 : Nat)
    (mix mix' m1 m1' : MixArray) (k : Nat)
    (h : mathLane p src1 src2 sel1 dst sel2 mix k = some m1)
    (h' : mathLane p src1 src2 sel1 dst sel2 mix' k = some m1') (hk : mix[k]? = mix'[k]?) :
    m1[k]? = m1'[k]? := by
  unfold mathLane at h h'
  rw [← getReg_congr mix mix' k src1 hk, ← getReg_congr mix mix' k src2 hk,
    ← getReg_congr mix mix' k dst hk] at h'
  simp only [Option.bind_eq_bind, Option.bind_eq_some] at h h'
  obtain ⟨a, ha, b, hb, d, hd, hset⟩ := h
  obtain ⟨a', ha', b', hb', d', hd', hset'⟩ := h'
  rw [ha] at ha'
  rw [hb] at hb'
  rw [hd] at hd'
  simp only [Option.some.injEq] at ha' hb' hd'
  subst ha' hb' hd'
  exact setReg_local _ _ _ _ _ _ _ hset hset' hk

theorem dagWord_frame (p : Params) (item dsts sels : List Nat) (offset k : Nat)
    (mix m1 : MixArray) (i l : Nat) (h : dagWord p item dsts sels offset k mix i = some m1)
    (hlk : l ≠ k) : m1[l]? = mix[l]? := by
  unfold dagWord at h
  simp only [Option.bind_eq_bind, Option.bind_eq_some] at h
  obtain ⟨_, _, _, _, _, _, _, _, h⟩ := h
  exact setReg_frame _ _ _ _ _ _ h hlk

theorem dagWord_local (p : Params) (item dsts sels : List Nat) (offset k : Nat)
    (mix mix' m1 m1' : MixArray) (i : Nat)
    (h : dagWord p item dsts sels offset k mix i = some m1)
    (h' : dagWord p item dsts sels offset k mix' i = some m1') (hk : mix[k]? = mix'[k]?) :
    m1[k]? = m1'[k]? := by
  unfold dagWord at h h'
  simp only [Option.bind_eq_bind, Option.bind_eq_some] at h h'
  obtain ⟨w, hw, dst, hdst, sel, hsel, d, hd, hset⟩ := h
  obtain ⟨w', hw', dst', hdst', sel', hsel', d', hd', hset'⟩ := h'
  rw [hw] at hw'
  rw [hdst] at hdst'
  rw [hsel] at hsel'
  simp only [Option.some.injEq] at hw' hdst' hsel'
  subst hw' hdst' hsel'
  rw [← getReg_congr mix mix' k dst hk, hd] at hd'
  simp only [Option.some.injEq] at hd'
  subst hd'
  exact setReg_local _ _ _ _ _ _ _ hset hset' hk

theorem dagLane_frame (p : Params) (r : Nat) (item dsts sels : List Nat) (n : Nat)
    (mix m1 : MixArray) (k l : Nat) (h : dagLane p r item dsts sels n mix k = some m1)
    (hlk : l ≠ k) : m1[l]? = mix[l]? := by
  unfold dagLane at h
  exact foldlM_pres _ (fun m => m[l]? = mix[l]?) _ _ _
    (fun s a s' hs hinv => (dagWord_frame p _ _ _ _ k s s' a l hs hlk).trans hinv) rfl h

theorem dagLane_local (p : Params) (r : Nat) (item dsts sels : List Nat) (n : Nat)
    (mix mix' m1 m1' : MixArray) (k : Nat)
    (h : dagLane p r item dsts sels n mix k = some m1)
    (h' : dagLane p r item dsts sels n mix' k = some m1') (hk : mix[k]? = mix'[k]?) :
    m1[k]? = m1'[k]? := by
  unfold dagLane at h h'
  exact foldlM_rel _ _ (fun (m m' : MixArray) => m[k]? = m'[k]?) _ mix mix' m1 m1' hk
    (fun i u u' v v' huu hv hv' => dagWord_local p _ _ _ _ k u u' v v' i hv hv' huu) h h'

/-- A loop over the lanes whose body touches only its own lane, and there depends only on
that lane, keeps two mix states that agree on lane `l` in agreement on lane `l`. -/
theorem lanes_agree (F : MixArray → Nat → Option MixArray) (l : Nat)
    (hframe : ∀ mix m1 k, F mix k = some m1 → l ≠ k → m1[l]? = mix[l]?)
    (hlocal : ∀ mix mix' m1 m1' k, F mix k = some m1 → F mix' k = some m1' →
      mix[k]? = mix'[k]? → m1[k]? = m1'[k]?)
    (ks : List Nat) (mix mix' m1 m1' : MixArray) (hl : mix[l]? = mix'[l]?)
    (h : ks.foldlM F mix = some m1) (h' : ks.foldlM F mix' = some m1') : m1[l]? = m1'[l]? :=
  foldlM_rel F F (fun (m m' : MixArray) => m[l]? = m'[l]?) ks mix mix' m1 m1' hl
    (fun k u u' v v' huu hv hv' => by
      by_cases hlk : l = k
      · subst hlk
        exact hlocal u u' v v' l hv hv' huu
      · exact (hframe u v k hv hlk).trans (Eq.trans huu (hframe u' v' k hv' hlk).symm)) h h'

theorem cacheOp_agree (p : Params) (l1 : List Nat) (acc acc' res res' : MixArray × MixRngState)
    (l : Nat) (hl : acc.1[l]? = acc'.1[l]?) (hs : acc.2 = acc'.2)
    (h : cacheOp p l1 acc = some res) (h' : cacheOp p l1 acc' = some res') :
    res.1[l]? = res'.1[l]? ∧ res.2 = res'.2 := by
  unfold cacheOp at h h'
  rw [← hs] at h'
  simp only [Option.bind_eq_bind, Option.bind_eq_some, Option.pure_def, Option.some.injEq]
    at h h'
  obtain ⟨src, hsrc, dst, hdst, m, hm, rfl⟩ := h
  obtain ⟨src', hsrc', dst', hdst', m', hm', rfl⟩ := h'
  rw [hsrc] at hsrc'
  simp only [Option.some.injEq] at hsrc'
  subst hsrc'
  rw [hdst] at hdst'
  simp only [Option.some.injEq] at hdst'
  subst hdst'
  exact ⟨lanes_agree _ l (fun mix m1 k hF hlk => cacheLane_frame p l1 _ _ _ mix m1 k l hF hlk)
    (fun mix mix' m1 m1' k hF hF' hk => cacheLane_local p l1 _ _ _ mix mix' m1 m1' k hF hF' hk)
    _ _ _ _ _ hl hm hm', rfl⟩

theorem mathOp_agree (p : Params) (acc acc' res res' : MixArray × MixRngState)
    (l : Nat) (hl : acc.1[l]? = acc'.1[l]?) (hs : acc.2 = acc'.2)
    (h : mathOp p acc = some res) (h' : mathOp p acc' = some res') :
    res.1[l]? = res'.1[l]? ∧ res.2 = res'.2 := by
  unfold mathOp at h h'
  rw [← hs] at h'
  simp only [Option.bind_eq_bind, Option.bind_eq_some, Option.pure_def, Option.some.injEq]
    at h h'
  obtain ⟨dst, hdst, m, hm, rfl⟩ := h
  obtain ⟨dst', hdst', m', hm', rfl⟩ := h'
  rw [hdst] at hdst'
  simp only [Option.some.injEq] at hdst'
  subst hdst'
  exact ⟨lanes_agree _ l (fun mix m1 k hF hlk => mathLane_frame p _ _ _ _ _ mix m1 k l hF hlk)
    (fun mix mix' m1 m1' k hF hF' hk => mathLane_local p _ _ _ _ _ mix mix' m1 m1' k hF hF' hk)
    _ _ _ _ _ hl hm hm', rfl⟩

theorem roundStep_agree (p : Params) (l1 : List Nat) (acc acc' res res' : MixArray × MixRngState)
    (i l : Nat) (hl : acc.1[l]? = acc'.1[l]?) (hs : acc.2 = acc'.2)
    (h : roundStep p l1 acc i = some res) (h' : roundStep p l1 acc' i = some res') :
    res.1[l]? = res'.1[l]? ∧ res.2 = res'.2 := by
  unfold roundStep at h h'
  simp only [Option.bind_eq_bind, Option.bind_eq_some] at h h'
  obtain ⟨a1, h1, h2⟩ := h
  obtain ⟨a1', h1', h2'⟩ := h'
  have e1 : a1.1[l]? = a1'.1[l]? ∧ a1.2 = a1'.2 := by
    by_cases hc : i < p.numCacheAccesses
    · rw [if_pos hc] at h1 h1'
      exact cacheOp_agree p l1 acc acc' a1 a1' l hl hs h1 h1'
    · rw [if_neg hc] at h1 h1'
      simp only [Option.some.injEq] at h1 h1'
      subst h1 h1'
      exact ⟨hl, hs⟩
  by_cases hm : i < p.numMathOperations
  · rw [if_pos hm] at h2 h2'
    exact mathOp_agree p a1 a1' res res' l e1.1 e1.2 h2 h2'
  · rw [if_neg hm] at h2 h2'
    simp only [Option.some.injEq] at h2 h2'
    subst h2 h2'
    exact e1

theorem round_agree (p : Params) (l1 : List Nat) (r : Nat) (mix mix' : MixArray)
    (state : MixRngState) (lookup : Nat → List Nat) (res res' : MixArray × MixRngState)
    (l : Nat) (hl : mix[l]? = mix'[l]?)
    (h0 : getReg mix (r % p.numLanes) 0 = getReg mix' (r % p.numLanes) 0)
    (h : round p l1 r mix state lookup = some res)
    (h' : round p l1 r mix' state lookup = some res') :
    res.1[l]? = res'.1[l]? ∧ res.2 = res'.2 := by
  unfold round at h h'
  rw [← h0] at h'
  simp only [Option.bind_eq_bind, Option.bind_eq_some, Option.pure_def, Option.some.injEq]
    at h h'
  obtain ⟨m0, hm0, idx, hidx, acc, hacc, dag, hdag, m1, hm1, rfl⟩ := h
  obtain ⟨m0', hm0', idx', hidx', acc', hacc', dag', hdag', m1', hm1', rfl⟩ := h'
  rw [hm0] at hm0'
  simp only [Option.some.injEq] at hm0'
  subst hm0'
  rw [hidx] at hidx'
  simp only [Option.some.injEq] at hidx'
  subst hidx'
  have e1 : acc.1[l]? = acc'.1[l]? ∧ acc.2 = acc'.2 :=
    foldlM_rel _ _ (fun (a a' : MixArray × MixRngState) => a.1[l]? = a'.1[l]? ∧ a.2 = a'.2)
      _ (mix, state) (mix', state) acc acc' ⟨hl, rfl⟩
      (fun i u u' v v' huu hv hv' => roundStep_agree p l1 u u' v v' i l huu.1 huu.2 hv hv')
      hacc hacc'
  rw [← e1.2, hdag] at hdag'
  simp only [Option.some.injEq] at hdag'
  subst hdag'
  exact ⟨lanes_agree _ l
    (fun mx m k hF hlk => dagLane_frame p r _ _ _ _ mx m k l hF hlk)
    (fun mx mx' m m' k hF hF' hk => dagLane_local p r _ _ _ _ mx mx' m m' k hF hF' hk)
    _ _ _ _ _ e1.1 hm1 hm1', rfl⟩

theorem MixOK_set (p : Params) (mix : MixArray) (k : Nat) (row : List Nat)
    (hm : MixOK p mix) (hrow : row.length = p.numRegs) : MixOK p (mix.set k row) := by
  refine ⟨by rw [List.length_set]; exact hm.1, ?_⟩
  intro x hx
  rcases List.mem_or_eq_of_mem_set hx with h | h
  · exact hm.2 x h
  · rw [h]; exact hrow

/-- C13: for every cache, round index, schedule state and lookup, and any two mix states
that agree on lane `l` and on register 0 of lane `r % numLanes`, the mix states returned
by `round` agree on lane `l` and the schedules returned are equal; with well-formed
constants, a cache of at least `l1CacheNumItems` words and well-shaped arguments both
runs do return. -/
theorem lanes_do_not_interfere (p : Params) (l1 : List Nat) (r : Nat) (mix mix' : MixArray)
    (state : MixRngState) (lookup : Nat → List Nat) (l : Nat) (hl : mix[l]? = mix'[l]?)
    (h0 : getReg mix (r % p.numLanes) 0 = getReg mix' (r % p.numLanes) 0) :
    (∀ res res', round p l1 r mix state lookup = some res →
      round p l1 r mix' state lookup = some res' →
      res.1[l]? = res'.1[l]? ∧ res.2 = res'.2) ∧
    (p.WF → p.l1CacheNumItems ≤ l1.length → MixOK p mix → MixOK p mix' → SchedOK p state →
      ∃ res res', round p l1 r mix state lookup = some res ∧
        round p l1 r mix' state lookup = some res' ∧
        res.1[l]? = res'.1[l]? ∧ res.2 = res'.2) := by
  refine ⟨fun res res' h h' => round_agree p l1 r mix mix' state lookup res res' l hl h0 h h',
    ?_⟩
  intro hp hl1 hm hm' hs
  obtain ⟨res, hres, _⟩ := round_ok p l1 r mix state lookup hp hl1 hm hs
  obtain ⟨res', hres', _⟩ := round_ok p l1 r mix' state lookup hp hl1 hm' hs
  exact ⟨res, res', hres, hres',
    round_agree p l1 r mix mix' state lookup res res' l hl h0 hres hres'⟩

theorem lanes_do_not_interfere_witness :
    ((initMix sampleParams 7)[1]? = ((initMix sampleParams 7).set 5 (List.replicate 32 0))[1]? ∧
      getReg (initMix sampleParams 7) (0 % sampleParams.numLanes) 0 =
        getReg ((initMix sampleParams 7).set 5 (List.replicate 32 0))
          (0 % sampleParams.numLanes) 0 ∧
      (initMix sampleParams 7)[5]? ≠ ((initMix sampleParams 7).set 5 (List.replicate 32 0))[5]?) ∧
    ∃ res res',
      round sampleParams (List.replicate 4096 7) 0 (initMix sampleParams 7)
        (initMixRngState sampleParams 0) (fun i => List.replicate 64 i) = some res ∧
      round sampleParams (List.replicate 4096 7) 0
        ((initMix sampleParams 7).set 5 (List.replicate 32 0))
        (initMixRngState sampleParams 0) (fun i => List.replicate 64 i) = some res' ∧
      res.1[1]? = res'.1[1]? ∧ res.2 = res'.2 :=
  ⟨by decide,
    (lanes_do_not_interfere sampleParams (List.replicate 4096 7) 0 (initMix sampleParams 7)
      ((initMix sampleParams 7).set 5 (List.replicate 32 0)) (initMixRngState sampleParams 0)
      (fun i => List.replicate 64 i) 1 (by decide) (by decide)).2 sampleParams_wf
      (List.length_replicate 4096 7).ge (initMix_ok sampleParams 7)
      (MixOK_set sampleParams _ 5 _ (initMix_ok sampleParams 7) (by decide))
      (initMixRngState_ok sampleParams 0)⟩

/-! ## Runs with a lookup callback -/

theorem round_eq_body (p : Params) (l1 : List Nat) (r : Nat) (mix : MixArray)
    (state : MixRngState) (lookup : Nat → List Nat) :
    round p l1 r mix state lookup =
      (roundIndex p r mix).bind (fun idx => roundBody p l1 r mix state (lookup idx)) := by
  unfold round roundIndex roundBody
  cases getReg mix (r % p.numLanes) 0 with
  | none => rfl
  | some m0 =>
    by_cases hz : p.l1CacheNumItems / 2 = 0
    · simp only [if_pos hz, Option.bind_eq_bind, Option.some_bind, Option.none_bind]
    · simp only [if_neg hz, Option.bind_eq_bind, Option.some_bind]

/-- With a callback that returns `lookup i` in every state, `roundCb` is `round`; the
callback is left in the state its one invocation produces. -/
theorem roundCb_total {σ ε : Type} (p : Params) (l1 : List Nat) (r : Nat) (mix : MixArray)
    (state : MixRngState) (lookup : Nat → List Nat) (next : Nat → σ → σ) (cb : σ) :
    roundCb (ε := ε) p l1 r mix state (fun i c => (Except.ok (lookup i), next i c)) cb =
      (Outcome.ofOption (round p l1 r mix state lookup),
        match roundIndex p r mix with
        | some idx => next idx cb
        | none => cb) := by
  rw [round_eq_body]
  unfold roundCb
  cases roundIndex p r mix with
  | none => rfl
  | some idx =>
    simp only [Option.some_bind]
    cases roundBody p l1 r mix state (lookup idx) with
    | none => rfl
    | some res => rfl

theorem roundsCb_append_done {σ ε : Type} (p : Params) (l1 : List Nat) (lookup : Callback σ ε)
    (xs ys : List Nat) (acc a : MixArray × MixRngState) (cb c : σ)
    (hxs : roundsCb p l1 lookup xs acc cb = (Outcome.done a, c)) :
    roundsCb p l1 lookup (xs ++ ys) acc cb = roundsCb p l1 lookup ys a c := by
  induction xs generalizing acc cb with
  | nil =>
    simp only [roundsCb, Prod.mk.injEq, Outcome.done.injEq] at hxs
    obtain ⟨rfl, rfl⟩ := hxs
    rfl
  | cons x xs ih =>
    simp only [List.cons_append]
    unfold roundsCb at hxs
    rw [roundsCb]
    cases hA : roundCb p l1 (wrap32 x) acc.1 acc.2 lookup cb with
    | mk o c1 =>
      rw [hA] at hxs
      cases o with
      | done a1 =>
        simp only at hxs ⊢
        exact ih a1 c1 hxs
      | lookupFailed e1 => simp only [Prod.mk.injEq] at hxs; exact absurd hxs.1 (by simp)
      | fault => simp only [Prod.mk.injEq] at hxs; exact absurd hxs.1 (by simp)

theorem roundCb_log {ε : Type} (p : Params) (l1 : List Nat) (r : Nat) (mix : MixArray)
    (state : MixRngState) (lookup : Nat → List Nat) (log : List Nat)
    (res : MixArray × MixRngState) (idx : Nat) (hidx : roundIndex p r mix = some idx)
    (h : round p l1 r mix state lookup = some res) :
    roundCb (ε := ε) p l1 r mix state (logCallback lookup) log =
      (Outcome.done res, log ++ [idx]) := by
  have e := roundCb_total (ε := ε) p l1 r mix state lookup (fun i (c : List Nat) => c ++ [i]) log
  rw [h, hidx] at e
  exact e

/-- The 64 rounds, whenever they return: the chain of intermediate states, and the
indices that the recording callback has logged, one per round and in order. -/
theorem rounds_log_chain {ε : Type} (p : Params) (l1 : List Nat) (lookup : Nat → List Nat)
    (n : Nat) (acc res : MixArray × MixRngState)
    (h : (List.range n).foldlM (fun a i => round p l1 (wrap32 i) a.1 a.2 lookup) acc =
      some res) :
    ∃ (accs : List (MixArray × MixRngState)) (idxs : List Nat),
      accs.length = n + 1 ∧ idxs.length = n ∧ accs[0]? = some acc ∧ accs[n]? = some res ∧
      (∀ k, k < n → ∃ a b idx, accs[k]? = some a ∧ accs[k + 1]? = some b ∧
        idxs[k]? = some idx ∧ roundIndex p (wrap32 k) a.1 = some idx ∧
        round p l1 (wrap32 k) a.1 a.2 lookup = some b) ∧
      ∀ log, roundsCb (ε := ε) p l1 (logCallback lookup) (List.range n) acc log =
        (Outcome.done res, log ++ idxs) := by
  induction n generalizing res with
  | zero =>
    simp only [List.range_zero, List.foldlM_nil, Option.pure_def, Option.some.injEq] at h
    subst h
    exact ⟨[acc], [], rfl, rfl, rfl, rfl, fun k hk => absurd hk (Nat.not_lt_zero k),
      fun log => by simp [roundsCb]⟩
  | succ n ih =>
    rw [List.range_succ, List.foldlM_append] at h
    simp only [Option.bind_eq_bind, Option.bind_eq_some, List.foldlM_cons, List.foldlM_nil,
      Option.pure_def, Option.some.injEq] at h
    obtain ⟨s1, h1, s2, h2, rfl⟩ := h
    obtain ⟨accs, idxs, hlen, hilen, h0, hlast, hch, hlog⟩ := ih s1 h1
    obtain ⟨idx, hidx⟩ := round_some_index p l1 _ s1.1 s1.2 lookup s2 h2
    refine ⟨accs ++ [s2], idxs ++ [idx], by simp [hlen], by simp [hilen], ?_, ?_, ?_, ?_⟩
    · rw [List.getElem?_append_left (by omega)]; exact h0
    · rw [List.getElem?_append_right (by omega), hlen]; simp
    · intro k hk
      rcases Nat.lt_succ_iff_lt_or_eq.mp hk with hk' | hk'
      · obtain ⟨a, b, i, ha, hb, hi, hri, hr⟩ := hch k hk'
        exact ⟨a, b, i, by rw [List.getElem?_append_left (by omega)]; exact ha,
          by rw [List.getElem?_append_left (by omega)]; exact hb,
          by rw [List.getElem?_append_left (by omega)]; exact hi, hri, hr⟩
      · subst hk'
        refine ⟨s1, s2, idx, by rw [List.getElem?_append_left (by omega)]; exact hlast, ?_, ?_,
          hidx, h2⟩
        · rw [List.getElem?_append_right (by omega), hlen]; simp
        · rw [List.getElem?_append_right (by omega), hilen]; simp
    · intro log
      rw [List.range_succ, roundsCb_append_done p l1 _ _ _ acc s1 log _ (hlog log)]
      unfold roundsCb
      rw [roundCb_log p l1 _ s1.1 s1.2 lookup _ s2 idx hidx h2]
      simp [roundsCb]

theorem hashMix_some_parts (p : Params) (l1 : List Nat) (height seed : Nat)
    (lookup : Nat → List Nat) (digest : List Nat)
    (h : hashMix p l1 height seed lookup = some digest) :
    ∃ res ws, (List.range 64).foldlM (fun a i => round p l1 (wrap32 i) a.1 a.2 lookup)
        (initMix p seed, initMixRngState p (height / p.periodLength)) = some res ∧
      (laneHashes p res.1).bind (mixHashOf p) = some ws ∧
      digest = p.uint32Array2ByteArray ws := by
  have e : hashMix p l1 height seed lookup =
      (((List.range 64).foldlM (fun a i => round p l1 (wrap32 i) a.1 a.2 lookup)
        (initMix p seed, initMixRngState p (height / p.periodLength))).bind
        (fun acc => (laneHashes p acc.1).bind (mixHashOf p))).map p.uint32Array2ByteArray := rfl
  rw [e] at h
  simp only [Option.map_eq_some', Option.bind_eq_some] at h
  obtain ⟨ws, ⟨res, hres, hws⟩, hd⟩ := h
  exact ⟨res, ws, hres, by simpa [Option.bind_eq_some] using hws, hd.symm⟩

/-- Whenever `hashMix` returns a digest: the run with the recording callback returns the
same digest, has invoked `lookup` exactly 64 times, and the invocations are those of 64
calls of `round` with the round indices `0, ..., 63` in order, each on the mix state and
schedule that the previous call returned. -/
theorem hashMix_log {ε : Type} (p : Params) (l1 : List Nat) (height seed : Nat)
    (lookup : Nat → List Nat) (digest : List Nat)
    (h : hashMix p l1 height seed lookup = some digest) :
    ∃ (accs : List (MixArray × MixRngState)) (idxs : List Nat),
      hashMixCb (ε := ε) p l1 height seed (logCallback lookup) [] = (Outcome.done digest, idxs) ∧
      idxs.length = 64 ∧ accs.length = 65 ∧
      accs[0]? = some (initMix p seed, initMixRngState p (height / p.periodLength)) ∧
      ∀ r, r < 64 → ∃ a b idx, accs[r]? = some a ∧ accs[r + 1]? = some b ∧
        idxs[r]? = some idx ∧ roundIndex p r a.1 = some idx ∧
        round p l1 r a.1 a.2 lookup = some b := by
  obtain ⟨res, ws, hres, hws, hd⟩ := hashMix_some_parts p l1 height seed lookup digest h
  obtain ⟨accs, idxs, hlen, hilen, h0, _, hch, hlog⟩ :=
    rounds_log_chain (ε := ε) p l1 lookup 64 _ res hres
  refine ⟨accs, idxs, ?_, hilen, hlen, h0, ?_⟩
  · unfold hashMixCb
    rw [hlog [], List.nil_append]
    simp only [hws, hd]
  · intro r hr
    obtain ⟨a, b, idx, ha, hb, hi, hri, hrd⟩ := hch r hr
    rw [wrap32_of_lt r (by omega)] at hri hrd
    exact ⟨a, b, idx, ha, hb, hi, hri, hrd⟩

/-- C14 (as stated, refuted): with the empty cache the first call of `round` faults after
it has invoked `lookup` (with index 30): the run ends in a fault with one invocation
recorded, not 64. -/
theorem lookup_invoked_once_on_empty_cache :
    hashMixCb sampleParams [] 0 0 (logCallback (fun _ => [])) [] =
      ((Outcome.fault : Outcome Nat (List Nat)), [30]) := by
  decide

/-- C14 (amended): for well-formed constants and every cache of at least
`l1CacheNumItems` words, every height, seed and lookup function (items of any size),
`hashMix` returns a digest after exactly 64 calls of `round`, with round indices
`0, 1, ..., 63` in that order, each call on the mix state and schedule returned by the
previous one, and `lookup` is invoked exactly 64 times, once per round with the index
that the round requests. -/
theorem hashMix_runs_64_rounds (p : Params) (l1 : List Nat) (height seed : Nat)
    (lookup : Nat → List Nat) (hp : p.WF) (hl1 : p.l1CacheNumItems ≤ l1.length) :
    ∃ (digest : List Nat) (accs : List (MixArray × MixRngState)) (idxs : List Nat),
      hashMix p l1 height seed lookup = some digest ∧
      hashMixCb (ε := Nat) p l1 height seed (logCallback lookup) [] =
        (Outcome.done digest, idxs) ∧
      idxs.length = 64 ∧ accs.length = 65 ∧
      accs[0]? = some (initMix p seed, initMixRngState p (height / p.periodLength)) ∧
      ∀ r, r < 64 → ∃ a b idx, accs[r]? = some a ∧ accs[r + 1]? = some b ∧
        idxs[r]? = some idx ∧ roundIndex p r a.1 = some idx ∧
        round p l1 r a.1 a.2 lookup = some b := by
  obtain ⟨digest, hd⟩ := hashMix_some p l1 height seed lookup hp hl1
  obtain ⟨accs, idxs, h⟩ := hashMix_log (ε := Nat) p l1 height seed lookup digest hd
  exact ⟨digest, accs, idxs, hd, h⟩

theorem hashMix_runs_64_rounds_witness :
    (sampleParams.WF ∧ sampleParams.l1CacheNumItems ≤ (List.replicate 4096 7).length) ∧
    ∃ digest idxs,
      hashMixCb (ε := Nat) sampleParams (List.replicate 4096 7) 25 3
        (logCallback (fun i => List.replicate 100 i)) [] = (Outcome.done digest, idxs) ∧
      idxs.length = 64 := by
  obtain ⟨digest, _, idxs, _, h, hlen, _⟩ := hashMix_runs_64_rounds sampleParams
    (List.replicate 4096 7) 25 3 (fun i => List.replicate 100 i) sampleParams_wf
    (List.length_replicate 4096 7).ge
  exact ⟨⟨sampleParams_wf, (List.length_replicate 4096 7).ge⟩, digest, idxs, h, hlen⟩

/-! ## The schedule of registers and selectors -/

theorem cacheOp_factor (p : Params) (l1 : List Nat) (acc res : MixArray × MixRngState)
    (h : cacheOp p l1 acc = some res) :
    ∃ d, cacheDraw p acc.2 = some (d, res.2) ∧ applyDraw p l1 acc.1 d = some res.1 := by
  unfold cacheOp at h
  simp only [Option.bind_eq_bind, Option.bind_eq_some, Option.pure_def, Option.some.injEq] at h
  obtain ⟨src, hsrc, dst, hdst, m, hm, rfl⟩ := h
  refine ⟨Draw.cache src.1 dst.1 dst.2.Rng.Next.1, ?_, hm⟩
  unfold cacheDraw
  simp only [hsrc, hdst, Option.bind_eq_bind, Option.some_bind, Option.pure_def]

theorem mathOp_factor (p : Params) (l1 : List Nat) (acc res : MixArray × MixRngState)
    (h : mathOp p acc = some res) :
    ∃ d, mathDraw p acc.2 = some (d, res.2) ∧ applyDraw p l1 acc.1 d = some res.1 := by
  unfold mathOp at h
  simp only [Option.bind_eq_bind, Option.bind_eq_some, Option.pure_def, Option.some.injEq] at h
  obtain ⟨dst, hdst, m, hm, rfl⟩ := h
  refine ⟨Draw.math (mathSrc p.numRegs (acc.2.Rng.Next.1 % (p.numRegs * (p.numRegs - 1)))).1
    (mathSrc p.numRegs (acc.2.Rng.Next.1 % (p.numRegs * (p.numRegs - 1)))).2
    acc.2.Rng.Next.2.Next.1 dst.1 dst.2.Rng.Next.1, ?_, hm⟩
  unfold mathDraw
  simp only [hdst, Option.bind_eq_bind, Option.some_bind, Option.pure_def]

theorem roundStep_factor (p : Params) (l1 : List Nat) (acc res : MixArray × MixRngState)
    (i : Nat) (pre : List Draw) (h : roundStep p l1 acc i = some res) :
    ∃ ds, stepDraws p (pre, acc.2) i = some (pre ++ ds, res.2) ∧
      ds.foldlM (applyDraw p l1) acc.1 = some res.1 := by
  unfold roundStep at h
  simp only [Option.bind_eq_bind, Option.bind_eq_some] at h
  obtain ⟨a1, h1, h2⟩ := h
  have e1 : ∃ ds1, (if i < p.numCacheAccesses then
        (cacheDraw p acc.2).map (fun d => (pre ++ [d.1], d.2)) else some (pre, acc.2)) =
        some (pre ++ ds1, a1.2) ∧ ds1.foldlM (applyDraw p l1) acc.1 = some a1.1 := by
    by_cases hc : i < p.numCacheAccesses
    · rw [if_pos hc] at h1 ⊢
      obtain ⟨d, hd, hap⟩ := cacheOp_factor p l1 acc a1 h1
      exact ⟨[d], by rw [hd]; rfl, by simp only [List.foldlM_cons, List.foldlM_nil, hap]; rfl⟩
    · rw [if_neg hc] at h1 ⊢
      simp only [Option.some.injEq] at h1
      subst h1
      exact ⟨[], by rw [List.append_nil], rfl⟩
  obtain ⟨ds1, hs1, hap1⟩ := e1
  have e2 : ∃ ds2, (if i < p.numMathOperations then
        (mathDraw p a1.2).map (fun d => (pre ++ ds1 ++ [d.1], d.2)) else some (pre ++ ds1, a1.2)) =
        some (pre ++ ds1 ++ ds2, res.2) ∧ ds2.foldlM (applyDraw p l1) a1.1 = some res.1 := by
    by_cases hm : i < p.numMathOperations
    · rw [if_pos hm] at h2 ⊢
      obtain ⟨d, hd, hap⟩ := mathOp_factor p l1 a1 res h2
      exact ⟨[d], by rw [hd]; rfl, by simp only [List.foldlM_cons, List.foldlM_nil, hap]; rfl⟩
    · rw [if_neg hm] at h2 ⊢
      simp only [Option.some.injEq] at h2
      subst h2
      exact ⟨[], by rw [List.append_nil], rfl⟩
  obtain ⟨ds2, hs2, hap2⟩ := e2
  refine ⟨ds1 ++ ds2, ?_, ?_⟩
  · unfold stepDraws
    simp only [hs1, Option.bind_eq_bind, Option.some_bind]
    rw [hs2, List.append_assoc]
  · rw [List.foldlM_append, hap1]
    exact hap2

theorem ops_factor (p : Params) (l1 : List Nat) (xs : List Nat)
    (acc res : MixArray × MixRngState) (pre : List Draw)
    (h : xs.foldlM (roundStep p l1) acc = some res) :
    ∃ ds, xs.foldlM (stepDraws p) (pre, acc.2) = some (pre ++ ds, res.2) ∧
      ds.foldlM (applyDraw p l1) acc.1 = some res.1 := by
  induction xs generalizing acc pre with
  | nil =>
    simp only [List.foldlM_nil, Option.pure_def, Option.some.injEq] at h
    subst h
    exact ⟨[], by simp, rfl⟩
  | cons i xs ih =>
    rw [List.foldlM_cons] at h
    simp only [Option.bind_eq_bind, Option.bind_eq_some] at h
    obtain ⟨a1, h1, h2⟩ := h
    obtain ⟨ds1, hs1, hap1⟩ := roundStep_factor p l1 acc a1 i pre h1
    obtain ⟨ds2, hs2, hap2⟩ := ih a1 (pre ++ ds1) h2
    refine ⟨ds1 ++ ds2, ?_, ?_⟩
    · rw [List.foldlM_cons, hs1]
      simp only [Option.bind_eq_bind, Option.some_bind]
      rw [hs2, List.append_assoc]
    · rw [List.foldlM_append, hap1]
      exact hap2

/-- One round factors into a plan drawn from the schedule and the number of words per
lane alone, and the application of that plan to the data. -/
theorem roundBody_factor (p : Params) (l1 : List Nat) (r : Nat) (mix : MixArray)
    (state : MixRngState) (item : List Nat) (res : MixArray × MixRngState)
    (h : roundBody p l1 r mix state item = some res) :
    ∃ plan, roundPlan p (item.length / p.numLanes) state = some (plan, res.2) ∧
      applyPlan p l1 r item plan mix = some res.1 := by
  unfold roundBody at h
  simp only [Option.bind_eq_bind, Option.bind_eq_some, Option.pure_def, Option.some.injEq] at h
  obtain ⟨acc, hacc, dag, hdag, m1, hm1, rfl⟩ := h
  obtain ⟨ds, hds, hap⟩ := ops_factor p l1 _ (mix, state) acc [] hacc
  rw [List.nil_append] at hds
  refine ⟨⟨ds, dag.1.1, dag.1.2⟩, ?_, ?_⟩
  · unfold roundPlan
    simp only [hds, hdag, Option.bind_eq_bind, Option.some_bind, Option.pure_def]
  · unfold applyPlan
    simp only [hap, Option.bind_eq_bind, Option.some_bind]
    exact hm1

theorem round_factor (p : Params) (l1 : List Nat) (r : Nat) (mix : MixArray)
    (state : MixRngState) (lookup : Nat → List Nat) (res : MixArray × MixRngState)
    (h : round p l1 r mix state lookup = some res) :
    ∃ idx plan, roundIndex p r mix = some idx ∧
      roundPlan p ((lookup idx).length / p.numLanes) state = some (plan, res.2) ∧
      applyPlan p l1 r (lookup idx) plan mix = some res.1 := by
  rw [round_eq_body] at h
  simp only [Option.bind_eq_some] at h
  obtain ⟨idx, hidx, hbody⟩ := h
  obtain ⟨plan, hp, ha⟩ := roundBody_factor p l1 r mix state (lookup idx) res hbody
  exact ⟨idx, plan, hidx, hp, ha⟩

theorem rounds_factor (p : Params) (l1 : List Nat) (lookup : Nat → List Nat) (rs : List Nat)
    (acc res : MixArray × MixRngState)
    (h : rs.foldlM (fun a i => round p l1 (wrap32 i) a.1 a.2 lookup) acc = some res) :
    ∃ lens plans, roundsPlan p lens acc.2 = some (plans, res.2) ∧
      applyRounds p l1 lookup rs plans acc.1 = some (res.1, lens) := by
  induction rs generalizing acc with
  | nil =>
    simp only [List.foldlM_nil, Option.pure_def, Option.some.injEq] at h
    subst h
    exact ⟨[], [], rfl, rfl⟩
  | cons i rs ih =>
    rw [List.foldlM_cons] at h
    simp only [Option.bind_eq_bind, Option.bind_eq_some] at h
    obtain ⟨a1, h1, h2⟩ := h
    obtain ⟨idx, plan, hidx, hp, ha⟩ := round_factor p l1 _ acc.1 acc.2 lookup a1 h1
    obtain ⟨lens, plans, hps, has⟩ := ih a1 h2
    refine ⟨(lookup idx).length :: lens, plan :: plans, ?_, ?_⟩
    · unfold roundsPlan
      simp only [hp, hps]
    · unfold applyRounds
      simp only [hidx, ha, has]

theorem applyRounds_lengths (p : Params) (l1 : List Nat) (lookup : Nat → List Nat)
    (rs : List Nat) (plans : List RoundPlan) (mix m : MixArray) (lens : List Nat)
    (h : applyRounds p l1 lookup rs plans mix = some (m, lens)) :
    plans.length = rs.length ∧ lens.length = rs.length := by
  induction rs generalizing plans mix lens with
  | nil =>
    cases plans with
    | nil =>
      simp only [applyRounds, Option.some.injEq, Prod.mk.injEq] at h
      rw [← h.2]
      exact ⟨rfl, rfl⟩
    | cons q qs => simp [applyRounds] at h
  | cons i rs ih =>
    cases plans with
    | nil => simp [applyRounds] at h
    | cons q qs =>
      unfold applyRounds at h
      split at h
      · split at h
        · split at h
          · rename_i rest hrest
            simp only [Option.some.injEq, Prod.mk.injEq] at h
            obtain ⟨h1, h2⟩ := ih qs _ rest.2 (by rw [hrest, ← h.1])
            rw [← h.2]
            simp only [List.length_cons, h1, h2, and_self]
          · exact absurd h (by simp)
        · exact absurd h (by simp)
      · exact absurd h (by simp)

theorem applyRounds_uniform (p : Params) (l1 : List Nat) (lookup : Nat → List Nat) (n : Nat)
    (hn : ∀ i, (lookup i).length = n)
    (rs : List Nat) (plans : List RoundPlan) (mix m : MixArray) (lens : List Nat)
    (h : applyRounds p l1 lookup rs plans mix = some (m, lens)) :
    lens = List.replicate rs.length n := by
  induction rs generalizing plans mix lens with
  | nil =>
    cases plans with
    | nil =>
      simp only [applyRounds, Option.some.injEq, Prod.mk.injEq] at h
      rw [← h.2]
      rfl
    | cons q qs => simp [applyRounds] at h
  | cons i rs ih =>
    cases plans with
    | nil => simp [applyRounds] at h
    | cons q qs =>
      unfold applyRounds at h
      split at h
      · split at h
        · split at h
          · rename_i rest hrest
            simp only [Option.some.injEq, Prod.mk.injEq] at h
            have h1 := ih qs _ rest.2 (by rw [hrest, ← h.1])
            rw [← h.2, h1, hn]
            rfl
          · exact absurd h (by simp)
        · exact absurd h (by simp)
      · exact absurd h (by simp)

/-- C16: the registers and selectors that `round` uses are drawn from the schedule alone.
Every returning call of `round` is the application (`applyPlan`) to its cache, mix state
and item of a plan of registers and selectors (`roundPlan`) computed from the schedule
before the call and the length of the item, without cache, mix state, round index or item
contents; so two returning calls from the same schedule state, on any two caches, mix
states, round indices and lookup functions, whose items have the same length, use the
same registers and selectors and leave the same schedule. Across the 64 rounds of
`hashMix`, for any two seeds, caches and lookup functions and two heights with the same
`height / periodLength`, the 64 plans and the final schedule are computed (`roundsPlan`)
from `height / periodLength` and the 64 item lengths alone, and are equal in the two runs
when the item lengths are. -/
theorem schedule_data_independent (p : Params) :
    (∀ l1 l1' r r' mix mix' state lookup lookup' res res',
      round p l1 r mix state lookup = some res →
      round p l1' r' mix' state lookup' = some res' →
      ∃ idx idx' plan plan',
        roundIndex p r mix = some idx ∧ roundIndex p r' mix' = some idx' ∧
        roundPlan p ((lookup idx).length / p.numLanes) state = some (plan, res.2) ∧
        roundPlan p ((lookup' idx').length / p.numLanes) state = some (plan', res'.2) ∧
        applyPlan p l1 r (lookup idx) plan mix = some res.1 ∧
        applyPlan p l1' r' (lookup' idx') plan' mix' = some res'.1 ∧
        ((lookup idx).length = (lookup' idx').length → plan = plan' ∧ res.2 = res'.2)) ∧
    (∀ l1 l1' seed seed' height height' lookup lookup' digest digest',
      height / p.periodLength = height' / p.periodLength →
      hashMix p l1 height seed lookup = some digest →
      hashMix p l1' height' seed' lookup' = some digest' →
      ∃ res res' lens lens' plans plans',
        rounds p l1 lookup (initMix p seed, initMixRngState p (height / p.periodLength)) =
          some res ∧
        rounds p l1' lookup' (initMix p seed', initMixRngState p (height' / p.periodLength)) =
          some res' ∧
        roundsPlan p lens (initMixRngState p (height / p.periodLength)) = some (plans, res.2) ∧
        roundsPlan p lens' (initMixRngState p (height / p.periodLength)) =
          some (plans', res'.2) ∧
        applyRounds p l1 lookup (List.range 64) plans (initMix p seed) = some (res.1, lens) ∧
        applyRounds p l1' lookup' (List.range 64) plans' (initMix p seed') =
          some (res'.1, lens') ∧
        plans.length = 64 ∧ plans'.length = 64 ∧ lens.length = 64 ∧ lens'.length = 64 ∧
        (lens = lens' → plans = plans' ∧ res.2 = res'.2)) := by
  refine ⟨?_, ?_⟩
  · intro l1 l1' r r' mix mix' state lookup lookup' res res' h h'
    obtain ⟨idx, plan, hidx, hp, ha⟩ := round_factor p l1 r mix state lookup res h
    obtain ⟨idx', plan', hidx', hp', ha'⟩ := round_factor p l1' r' mix' state lookup' res' h'
    refine ⟨idx, idx', plan, plan', hidx, hidx', hp, hp', ha, ha', fun hlen => ?_⟩
    rw [hlen, hp'] at hp
    simp only [Option.some.injEq, Prod.mk.injEq] at hp
    exact ⟨hp.1.symm, hp.2.symm⟩
  · intro l1 l1' seed seed' height height' lookup lookup' digest digest' hh h h'
    obtain ⟨res, _, hres, _, _⟩ := hashMix_some_parts p l1 height seed lookup digest h
    obtain ⟨res', _, hres', _, _⟩ := hashMix_some_parts p l1' height' seed' lookup' digest' h'
    obtain ⟨lens, plans, hp, ha⟩ := rounds_factor p l1 lookup _ _ res hres
    obtain ⟨lens', plans', hp', ha'⟩ := rounds_factor p l1' lookup' _ _ res' hres'
    have hl := applyRounds_lengths p l1 lookup _ plans _ _ lens ha
    have hl' := applyRounds_lengths p l1' lookup' _ plans' _ _ lens' ha'
    rw [List.length_range] at hl hl'
    rw [← hh] at hp'
    refine ⟨res, res', lens, lens', plans, plans', hres, hres', hp, hp', ha, ha',
      hl.1, hl'.1, hl.2, hl'.2, fun hlen => ?_⟩
    rw [hlen, hp'] at hp
    simp only [Option.some.injEq, Prod.mk.injEq] at hp
    exact ⟨hp.1.symm, hp.2.symm⟩

theorem schedule_data_independent_witness :
    ∃ res res' plans,
      rounds sampleParams (List.replicate 4096 7) (fun _ => List.replicate 64 1)
        (initMix sampleParams 3, initMixRngState sampleParams (25 / sampleParams.periodLength)) =
          some res ∧
      rounds sampleParams (List.replicate 5000 9) (fun k => List.replicate 64 k)
        (initMix sampleParams 4, initMixRngState sampleParams (29 / sampleParams.periodLength)) =
          some res' ∧
      roundsPlan sampleParams (List.replicate 64 64)
        (initMixRngState sampleParams (25 / sampleParams.periodLength)) = some (plans, res.2) ∧
      applyRounds sampleParams (List.replicate 4096 7) (fun _ => List.replicate 64 1)
        (List.range 64) plans (initMix sampleParams 3) = some (res.1, List.replicate 64 64) ∧
      applyRounds sampleParams (List.replicate 5000 9) (fun k => List.replicate 64 k)
        (List.range 64) plans (initMix sampleParams 4) = some (res'.1, List.replicate 64 64) ∧
      res.2 = res'.2 := by
  obtain ⟨digest, hd⟩ := hashMix_some sampleParams (List.replicate 4096 7) 25 3
    (fun _ => List.replicate 64 1) sampleParams_wf (List.length_replicate 4096 7).ge
  obtain ⟨digest', hd'⟩ := hashMix_some sampleParams (List.replicate 5000 9) 29 4
    (fun k => List.replicate 64 k) sampleParams_wf (by rw [List.length_replicate]; decide)
  obtain ⟨res, res', lens, lens', plans, plans', hres, hres', hp, _, ha, ha', _, _, _, _, heq⟩ :=
    (schedule_data_independent sampleParams).2 (List.replicate 4096 7) (List.replicate 5000 9)
      3 4 25 29 (fun _ => List.replicate 64 1) (fun k => List.replicate 64 k) digest digest'
      (by decide) hd hd'
  have hl : lens = List.replicate 64 64 :=
    applyRounds_uniform sampleParams _ _ 64 (fun _ => List.length_replicate 64 1)
      (List.range 64) plans _ _ lens ha
  have hl' : lens' = List.replicate 64 64 :=
    applyRounds_uniform sampleParams _ _ 64 (fun k => List.length_replicate 64 k)
      (List.range 64) plans' _ _ lens' ha'
  obtain ⟨hpl, hst⟩ := heq (by rw [hl, hl'])
  rw [hl] at hp ha
  rw [hl', ← hpl] at ha'
  exact ⟨res, res', plans, hres, hres', hp, ha, ha', hst⟩

end Pow
